import Mathlib

/-!
Verification of the Havoc/calcharo execution tracer and animation adapter
framework (a Python project) against its natural-language specification.

The development shallow-embeds the relevant parts of the source:

* `src/calcharo/core/models.py` — `ExecutionStep`, `HeapObject`,
  `ExecutionContext.create_step`, `ExecutionContext.track_heap_object`;
* `src/calcharo/core/tracer.py` — the resource-bounded interpreter
  (`ExecutionTracer.trace`, `_execute_node`, `_eval_expression`,
  `_assign_value`, `_apply_operator`, `_apply_comparison`);
* `src/calcharo/adapters/base.py` — `AnimationCommand`,
  `VisualizationAdapter.optimize_animations`;
* `src/calcharo/adapters/array_adapter.py` — `ArrayAdapter`
  (`detect_array_changes`, `generate_animations`, `add_sorted_celebration`);
* `src/calcharo/adapters/*.py` — the twelve `can_handle` probes;
* `src/calcharo/adapters/registry.py` — `ADAPTER_PRIORITY`,
  `AdapterRegistry.detect_adapters`.

Modelling conventions:

* Python values captured in snapshots become `SnapVal`; live interpreter
  values become `RVal`, where mutable lists live on an explicit heap and
  are addressed by allocation order (`RVal.rref`).
* CPython's `id()` for a tracked container, `datetime.now()` and
  `time.perf_counter_ns()` are the only run-dependent observations made by
  the tracer; they are modelled by an environment `Env` consisting of an
  (injective, for live objects) relabelling `idOf` of allocation order and
  two clock streams indexed by step number.
* Python floats are modelled as rationals; the claims under verification
  only exercise exact values (0.0 fallbacks), where the model is exact.
* The interpreter is embedded for the statement/expression fragment:
  assignments (name / subscript / tuple targets), augmented assignment,
  `if` / `while` / `for`, expression statements; constants, names,
  list/tuple literals, binary/unary/comparison operators, subscripts.
  Function definitions, imports, comprehensions and calls are outside the
  fragment (none of the claims depends on them).
* Recursion in the interpreter is fuel-indexed (the Python `while` loop is
  unbounded); exhausting fuel yields the distinguished `Fault.fuel`,
  an artifact of the embedding that no theorem ever equates with a
  behaviour of the source.
-/

/-- Snapshot values: Python values as they appear in the deep-copied
`variables_state` of an `ExecutionStep` (models.py, `ExecutionStep`). -/
inductive SnapVal where
  | vnone : SnapVal
  | vint : Int → SnapVal
  | vfloat : Rat → SnapVal
  | vbool : Bool → SnapVal
  | vstr : String → SnapVal
  | vlist : List SnapVal → SnapVal
  | vtuple : List SnapVal → SnapVal
  | vdict : List (SnapVal × SnapVal) → SnapVal
  | vset : List SnapVal → SnapVal
deriving Repr

mutual

/-- Structural equality on snapshot values (Python `==` on the deep copies). -/
def SnapVal.beq : SnapVal → SnapVal → Bool
  | .vnone, .vnone => true
  | .vint a, .vint b => a == b
  | .vfloat a, .vfloat b => a == b
  | .vbool a, .vbool b => a == b
  | .vstr a, .vstr b => a == b
  | .vlist a, .vlist b => SnapVal.beqList a b
  | .vtuple a, .vtuple b => SnapVal.beqList a b
  | .vset a, .vset b => SnapVal.beqList a b
  | .vdict a, .vdict b => SnapVal.beqPairs a b
  | _, _ => false

def SnapVal.beqList : List SnapVal → List SnapVal → Bool
  | [], [] => true
  | x :: xs, y :: ys => SnapVal.beq x y && SnapVal.beqList xs ys
  | _, _ => false

def SnapVal.beqPairs : List (SnapVal × SnapVal) → List (SnapVal × SnapVal) → Bool
  | [], [] => true
  | (k₁, v₁) :: xs, (k₂, v₂) :: ys => SnapVal.beq k₁ k₂ && SnapVal.beq v₁ v₂ && SnapVal.beqPairs xs ys
  | _, _ => false

end

/-- `SnapVal.beq` decides propositional equality (support for `DecidableEq`). -/
theorem SnapVal.beq_iff_all :
    (∀ a b : SnapVal, SnapVal.beq a b = true ↔ a = b) ∧
    (∀ ps qs : List (SnapVal × SnapVal), SnapVal.beqPairs ps qs = true ↔ ps = qs) ∧
    (∀ as bs : List SnapVal, SnapVal.beqList as bs = true ↔ as = bs) := by
  apply SnapVal.beq.mutual_induct
  all_goals try (intros; solve | simp_all [SnapVal.beq, SnapVal.beqList, SnapVal.beqPairs])
  case case10 =>
    intro t x h1 h2 h3 h4 h5 h6 h7 h8 h9
    cases t <;> cases x <;>
      first
        | exact (h1 rfl rfl).elim
        | exact (h2 _ _ rfl rfl).elim
        | exact (h3 _ _ rfl rfl).elim
        | exact (h4 _ _ rfl rfl).elim
        | exact (h5 _ _ rfl rfl).elim
        | exact (h6 _ _ rfl rfl).elim
        | exact (h7 _ _ rfl rfl).elim
        | exact (h8 _ _ rfl rfl).elim
        | exact (h9 _ _ rfl rfl).elim
        | simp [SnapVal.beq]
  case case13 =>
    intro t x h1 h2
    cases t <;> cases x <;>
      first
        | exact (h1 rfl rfl).elim
        | exact (h2 _ _ _ _ rfl rfl).elim
        | simp [SnapVal.beqList]
  case case16 =>
    intro t x h1 h2
    cases t <;> cases x <;>
      first
        | exact (h1 rfl rfl).elim
        | exact (h2 _ _ _ _ _ _ rfl rfl).elim
        | simp [SnapVal.beqPairs]

instance : DecidableEq SnapVal :=
  fun a b => decidable_of_iff (SnapVal.beq a b = true) (SnapVal.beq_iff_all.1 a b)

/-- Live interpreter values.  Mutable containers (lists, the only mutable
container in the embedded fragment) are heap references addressed by
allocation order; tuples are immutable value aggregates. -/
inductive RVal where
  | rnone : RVal
  | rint : Int → RVal
  | rfloat : Rat → RVal
  | rbool : Bool → RVal
  | rstr : String → RVal
  | rref : Nat → RVal
  | rtuple : List RVal → RVal
deriving Repr

mutual

def RVal.beq : RVal → RVal → Bool
  | .rnone, .rnone => true
  | .rint a, .rint b => a == b
  | .rfloat a, .rfloat b => a == b
  | .rbool a, .rbool b => a == b
  | .rstr a, .rstr b => a == b
  | .rref a, .rref b => a == b
  | .rtuple a, .rtuple b => RVal.beqList a b
  | _, _ => false

def RVal.beqList : List RVal → List RVal → Bool
  | [], [] => true
  | x :: xs, y :: ys => RVal.beq x y && RVal.beqList xs ys
  | _, _ => false

end

theorem RVal.beq_iff_all_rv :
    (∀ a b : RVal, RVal.beq a b = true ↔ a = b) ∧
    (∀ as bs : List RVal, RVal.beqList as bs = true ↔ as = bs) := by
  apply RVal.beq.mutual_induct
  all_goals try (intros; solve | simp_all [RVal.beq, RVal.beqList])
  case case8 =>
    intro t x h1 h2 h3 h4 h5 h6 h7
    cases t <;> cases x <;>
      first
        | exact (h1 rfl rfl).elim
        | exact (h2 _ _ rfl rfl).elim
        | exact (h3 _ _ rfl rfl).elim
        | exact (h4 _ _ rfl rfl).elim
        | exact (h5 _ _ rfl rfl).elim
        | exact (h6 _ _ rfl rfl).elim
        | exact (h7 _ _ rfl rfl).elim
        | simp [RVal.beq]
  case case11 =>
    intro t x h1 h2
    cases t <;> cases x <;>
      first
        | exact (h1 rfl rfl).elim
        | exact (h2 _ _ _ _ rfl rfl).elim
        | simp [RVal.beqList]

instance : DecidableEq RVal :=
  fun a b => decidable_of_iff (RVal.beq a b = true) (RVal.beq_iff_all_rv.1 a b)

/-- `StepType` from models.py. -/
inductive StepType where
  | ASSIGNMENT | FUNCTION_CALL | FUNCTION_RETURN | CONDITION
  | LOOP_START | LOOP_ITERATION | LOOP_END
  | EXPRESSION | IMPORT_STEP | EXCEPTION | PRINT
deriving DecidableEq, Repr

/-- Association-list lookup keyed by decidable equality (Python `dict` read). -/
def lookupA {α β : Type} [DecidableEq α] : List (α × β) → α → Option β
  | [], _ => none
  | (k, v) :: rest, key => if key = k then some v else lookupA rest key

/-- Association-list write with Python `dict` semantics: an existing key keeps
its insertion position and gets the new value, a new key is appended. -/
def upsertA {α β : Type} [DecidableEq α] : List (α × β) → α → β → List (α × β)
  | [], k, v => [(k, v)]
  | (k', v') :: rest, k, v =>
      if k = k' then (k, v) :: rest else (k', v') :: upsertA rest k v

/-- Heap object as stored in `ExecutionContext.heap_tracker`
(models.py, `HeapObject`), keyed by canonical allocation address; the run
dependent `id()` label is applied when steps are stamped (`stampStep`).
`value` is the deep copy taken by `HeapObject.__post_init__` at the moment
the object was first tracked. -/
structure HeapObjectC where
  addr : Nat
  type_name : String
  value : SnapVal
  size : Nat
  references : List Nat
deriving DecidableEq, Repr

/-- Core (pre-stamping) execution step: every field of models.py
`ExecutionStep` that does not depend on the run environment.
`call_stack` is omitted: the embedded fragment has no function calls, so the
stack is constantly empty.  `expression_value` keeps the live `RVal`:
`ExecutionStep.__post_init__` deep-copies `variables_state` and `heap_state`
but *not* `expression_value`, which aliases the live object. -/
structure StepCore where
  step_number : Nat
  line_number : Nat
  column_number : Nat
  step_type : StepType
  source_code : String
  variables_state : List (String × SnapVal)
  stdout_snapshot : String
  stderr_snapshot : String
  heap_state : List (Nat × HeapObjectC)
  expression_value : Option RVal
  condition_result : Option Bool
  memory_usage : Nat
deriving DecidableEq, Repr

/-- Stamped heap object: `object_id` and `references` carry the run's `id()`
labels. -/
structure HeapObject where
  object_id : Nat
  type_name : String
  value : SnapVal
  size : Nat
  references : List Nat
deriving DecidableEq, Repr

/-- models.py `ExecutionStep` (call stack omitted, see `StepCore`).
`timestamp` models `datetime.now()`, `cpu_time_ns` models
`time.perf_counter_ns()`, and the `heap_state` keys model `id()` values. -/
structure ExecutionStep where
  step_number : Nat
  timestamp : Nat
  line_number : Nat
  column_number : Nat
  step_type : StepType
  source_code : String
  variables_state : List (String × SnapVal)
  stdout_snapshot : String
  stderr_snapshot : String
  heap_state : List (Nat × HeapObject)
  expression_value : Option RVal
  condition_result : Option Bool
  memory_usage : Nat
  cpu_time_ns : Nat
deriving DecidableEq, Repr

/-- Run environment: the only run-dependent inputs the tracer observes.
`clock`/`cpu` give `datetime.now()` / `time.perf_counter_ns()` at the n-th
`create_step` call (indexed by step number); `idOf` relabels canonical
allocation order into CPython `id()` values.  For live objects CPython ids
are distinct, so faithful environments have `idOf` injective. -/
structure Env where
  clock : Nat → Nat
  cpu : Nat → Nat
  idOf : Nat → Nat

def stampHeapObject (env : Env) (h : HeapObjectC) : HeapObject :=
  { object_id := env.idOf h.addr
    type_name := h.type_name
    value := h.value
    size := h.size
    references := h.references.map env.idOf }

def stampStep (env : Env) (s : StepCore) : ExecutionStep :=
  { step_number := s.step_number
    timestamp := env.clock s.step_number
    line_number := s.line_number
    column_number := s.column_number
    step_type := s.step_type
    source_code := s.source_code
    variables_state := s.variables_state
    stdout_snapshot := s.stdout_snapshot
    stderr_snapshot := s.stderr_snapshot
    heap_state := s.heap_state.map (fun p => (env.idOf p.1, stampHeapObject env p.2))
    expression_value := s.expression_value
    condition_result := s.condition_result
    memory_usage := s.memory_usage
    cpu_time_ns := env.cpu s.step_number }

/-- config.py `TracerConfig` (the fields the embedded core reads, plus the
wall-clock limit relevant to the timeout claims). -/
structure TracerConfig where
  max_steps : Nat := 1000000
  max_recursion_depth : Nat := 1000
  max_execution_time_seconds : Rat := 60
  max_memory_mb : Nat := 1024
  capture_stdout : Bool := true
  capture_stderr : Bool := true
  capture_expressions : Bool := true

/-- Fault taxonomy (errors.py), plus internal exceptions that the tracer
raises and `trace` re-wraps:
`resource` models `ResourceError` (raised in `_execute_node`),
`runtime` models the plain `RuntimeError` raised in
`ExecutionContext.create_step`, `pyExc` models an ordinary Python exception
escaping evaluation, and `fuel` is the embedding artifact for exhausted
fuel (not a behaviour of the source). -/
inductive Fault where
  | validation (msg : String)
  | parse (line : Nat)
  | execution (line : Nat) (cause : String)
  | resource (rtype : String)
  | runtime (msg : String)
  | timeout (seconds : Rat)
  | pyExc (name : String)
  | fuel
deriving DecidableEq, Repr

/-- The exception class name recorded by `trace`'s
`details={"exception_type": type(e).__name__}` wrapping. -/
def faultCauseName : Fault → String
  | .validation _ => "ValidationError"
  | .parse _ => "ParseError"
  | .execution _ _ => "ExecutionError"
  | .resource _ => "ResourceError"
  | .runtime _ => "RuntimeError"
  | .timeout _ => "TimeoutError"
  | .pyExc n => n
  | .fuel => "Fuel"

/-- The mutable tracer state: models.py `ExecutionContext` (the fields the
embedded fragment uses; `local_namespace` and `global_namespace` coincide
because the fragment has no function calls, so they are merged in `names`). -/
structure ExecCtx where
  current_line : Nat
  current_column : Nat
  step_count : Nat
  names : List (String × RVal)
  heap : List (List RVal)
  heap_tracker : List (Nat × HeapObjectC)
  stdout_buffer : String
  max_steps : Nat

/-- Tracer state: the execution context plus `ExecutionTracer.steps`. -/
structure TState where
  ctx : ExecCtx
  steps : List StepCore

/-- Tracer monad: state preserved on failure (Python exceptions leave the
mutated `ExecutionContext` observable to the `trace` wrapper). -/
def M (α : Type) : Type := TState → Except Fault α × TState

instance : Monad M where
  pure a := fun st => (Except.ok a, st)
  bind m f := fun st =>
    match m st with
    | (Except.ok a, st') => f a st'
    | (Except.error e, st') => (Except.error e, st')

def mThrow {α : Type} (f : Fault) : M α := fun st => (Except.error f, st)

def mGet : M TState := fun st => (Except.ok st, st)

def mModifyCtx (f : ExecCtx → ExecCtx) : M Unit :=
  fun st => (Except.ok (), { st with ctx := f st.ctx })

def mPushStep (s : StepCore) : M Unit :=
  fun st => (Except.ok (), { st with steps := st.steps ++ [s] })

/-- `copy.deepcopy` of a live value against the current heap, producing the
snapshot value stored in steps and heap objects.  Fuel bounds reference
chasing; callers pass `heap.length + 2`, enough for any acyclic heap (the
cyclic case, which CPython's memo handles, is unreachable in the claims). -/
def deepCopy (heap : List (List RVal)) : Nat → RVal → SnapVal
  | _, .rnone => .vnone
  | _, .rint i => .vint i
  | _, .rfloat q => .vfloat q
  | _, .rbool b => .vbool b
  | _, .rstr s => .vstr s
  | 0, .rref _ => .vnone
  | fuel + 1, .rref a => .vlist (((heap.get? a).getD []).map (deepCopy heap fuel))
  | 0, .rtuple _ => .vnone
  | fuel + 1, .rtuple es => .vtuple (es.map (deepCopy heap fuel))

def deepCopyTop (heap : List (List RVal)) (v : RVal) : SnapVal :=
  deepCopy heap (heap.length + 2) v

/-- Model of `obj.__sizeof__()` for a list (models.py `track_heap_object`):
a deterministic function of the list's state (CPython's exact number also
depends only on the interpreter's deterministic allocation history; the
constants are immaterial to every claim). -/
def sizeOfList (xs : List RVal) : Nat := 56 + 8 * xs.length

/-- Collect heap references among a list's items
(`track_heap_object`'s `references` set; elements of our fragment's lists
that are containers are exactly the `rref`s).  Insertion-ordered and
deduplicated, standing for the Python `set` of ids. -/
def listRefs (xs : List RVal) : List Nat :=
  (xs.filterMap (fun v => match v with | .rref b => some b | _ => none)).eraseDups

/-- Python truthiness for the fragment's values. -/
def pyTruthy (heap : List (List RVal)) : RVal → Bool
  | .rnone => false
  | .rint i => i != 0
  | .rfloat q => q != 0
  | .rbool b => b
  | .rstr s => s != ""
  | .rref a => ((heap.get? a).getD []).length != 0
  | .rtuple es => es.length != 0

/-- Coerce an int-like operand (`bool` is an `int` subtype in Python). -/
def intLike : RVal → Option Int
  | .rint i => some i
  | .rbool b => some (if b then 1 else 0)
  | _ => none

/-- Coerce a numeric operand to a rational (Python float arithmetic is
modelled exactly on rationals). -/
def numLike : RVal → Option Rat
  | .rint i => some (i : Rat)
  | .rbool b => some (if b then 1 else 0)
  | .rfloat q => some q
  | _ => none

/-- `r != 0` as evaluated in `_apply_operator`'s division guards:
numeric zero (including `0.0` and `False`) compares equal to `0`. -/
def pyEqZero : RVal → Bool
  | .rint i => i == 0
  | .rfloat q => q == 0
  | .rbool b => b == false
  | _ => false

def isFloat : RVal → Bool
  | .rfloat _ => true
  | _ => false

/-- Python indexing `xs[i]` on a materialized list with negative-index
wrapping; `none` when out of range. -/
def pyIndex {α : Type} (xs : List α) (i : Int) : Option α :=
  let n : Int := xs.length
  let j := if i < 0 then i + n else i
  if 0 ≤ j ∧ j < n then xs.get? j.toNat else none

/-- List store `xs[i] = v` (silently unchanged when out of range; the caller
`_assign_value` swallows `IndexError`). -/
def listStore (xs : List RVal) (i : Int) (v : RVal) : List RVal :=
  let n : Int := xs.length
  let j := if i < 0 then i + n else i
  if 0 ≤ j ∧ j < n then xs.set j.toNat v else xs

/-- Binary operator tags (the `ast.Add` … `ast.BitAnd` keys of
`_apply_operator`'s dispatch table). -/
inductive BinOp where
  | add | sub | mult | div | floorDiv | mod | pow
  | lshift | rshift | bitOr | bitXor | bitAnd
deriving DecidableEq, Repr

/-- Unary operator tags (`_apply_unary_operator`). -/
inductive UnaryOp where
  | usub | uadd | notOp | invert
deriving DecidableEq, Repr

/-- Comparison operator tags (`_apply_comparison`). -/
inductive CmpOp where
  | eq | ne | lt | le | gt | ge | isOp | isNot | inOp | notIn
deriving DecidableEq, Repr

/-- Substring test: Python's `sub in s` on strings (also used for the many
`keyword in name` probes in the adapters). -/
def strContains (hay needle : String) : Bool :=
  (List.range (hay.toList.length + 1)).any (fun i => needle.toList.isPrefixOf (hay.toList.drop i))

/-- `s.startswith(pre)` (Python) / `name.startswith('__')` in `create_step`. -/
def strStartsWith (s pre : String) : Bool :=
  pre.toList.isPrefixOf s.toList

/-- `s.lower()` as used by the adapters' keyword probes. -/
def strLower (s : String) : String :=
  String.mk (s.toList.map Char.toLower)

/-- Lexicographic `<` on strings (Python compares code points). -/
def charsLt : List Char → List Char → Bool
  | [], [] => false
  | [], _ :: _ => true
  | _ :: _, [] => false
  | a :: as, b :: bs => if a < b then true else if b < a then false else charsLt as bs

def strLt (a b : String) : Bool := charsLt a.toList b.toList

/-- Python `==` on fragment values (`_apply_comparison`'s `ast.Eq` lambda):
cross-type numeric equality, everything else by structural comparison of the
deep copies (which keeps the list/tuple/str distinctions Python makes). -/
def pyEqVal (heap : List (List RVal)) (l r : RVal) : Bool :=
  match numLike l, numLike r with
  | some a, some b => a == b
  | _, _ => SnapVal.beq (deepCopyTop heap l) (deepCopyTop heap r)

/-- Python `<` on fragment values; `none` models a `TypeError` (which
`_apply_comparison` turns into `False`).  List/tuple lexicographic ordering
is outside the modelled fragment (no claim orders containers). -/
def pyLtVal : RVal → RVal → Option Bool
  | l, r =>
    match numLike l, numLike r with
    | some a, some b => some (decide (a < b))
    | _, _ =>
      match l, r with
      | .rstr a, .rstr b => some (strLt a b)
      | _, _ => none

/-- Membership `l in r` (`ast.In`); unsupported right operands model the
`TypeError` that the enclosing `try` turns into `False`. -/
def pyContains (heap : List (List RVal)) (l r : RVal) : Bool :=
  match r with
  | .rref a => (((heap.get? a).getD []).any (fun x => pyEqVal heap x l))
  | .rtuple es => es.any (fun x => pyEqVal heap x l)
  | .rstr s =>
      match l with
      | .rstr sub => strContains s sub
      | _ => false
  | _ => false

/-- `ExecutionTracer._apply_comparison`: the dispatch table of comparison
lambdas, each wrapped in `try: … except: return False`. -/
def applyComparison (heap : List (List RVal)) : CmpOp → RVal → RVal → Bool
  | .eq, l, r => pyEqVal heap l r
  | .ne, l, r => !pyEqVal heap l r
  | .lt, l, r => (pyLtVal l r).getD false
  | .le, l, r =>
      match pyLtVal l r with
      | some t => t || pyEqVal heap l r
      | none => false
  | .gt, l, r => (pyLtVal r l).getD false
  | .ge, l, r =>
      match pyLtVal r l with
      | some t => t || pyEqVal heap l r
      | none => false
  | .isOp, l, r =>
      match l, r with
      | .rref a, .rref b => a == b
      | _, _ => RVal.beq l r
  | .isNot, l, r =>
      match l, r with
      | .rref a, .rref b => a != b
      | _, _ => !RVal.beq l r
  | .inOp, l, r => pyContains heap l r
  | .notIn, l, r => !pyContains heap l r

/-- `ExecutionTracer._apply_unary_operator` (`except: return None`). -/
def applyUnaryOperator (heap : List (List RVal)) : UnaryOp → RVal → RVal
  | .usub, v =>
      match v with
      | .rint i => .rint (-i)
      | .rfloat q => .rfloat (-q)
      | .rbool b => .rint (-(if b then 1 else 0))
      | _ => .rnone
  | .uadd, v =>
      match v with
      | .rint i => .rint i
      | .rfloat q => .rfloat q
      | .rbool b => .rint (if b then 1 else 0)
      | _ => .rnone
  | .notOp, v => .rbool (!pyTruthy heap v)
  | .invert, v =>
      match intLike v with
      | some i => .rint (-(i + 1))
      | none => .rnone

/-- Heap allocation of a fresh Python list (evaluation of an `ast.List`
literal, or `l + r` / `l * n` on lists). -/
def allocList (xs : List RVal) : M RVal :=
  fun st =>
    (Except.ok (.rref st.ctx.heap.length),
     { st with ctx := { st.ctx with heap := st.ctx.heap ++ [xs] } })

/-- `ExecutionTracer._apply_operator` (tracer.py lines 625-651), pure
dispatch: `None` operands short-circuit to `None`; a zero right operand for
`/`, `//`, `%` yields the documented fallbacks `0.0`, `0`, `0` instead of a
fault; any failing operation (the `except Exception` arm) yields `None`.
`Sum.inr xs` signals that the operation builds the fresh list `xs`
(list `+` / `*`), which the monadic wrapper allocates. -/
def applyOperatorCore (heap : List (List RVal)) (op : BinOp) (l r : RVal) :
    Sum RVal (List RVal) :=
  if l = .rnone || r = .rnone then .inl .rnone
  else
    match op with
    | .add =>
        match intLike l, intLike r with
        | some a, some b => .inl (.rint (a + b))
        | _, _ =>
          match numLike l, numLike r with
          | some a, some b => .inl (.rfloat (a + b))
          | _, _ =>
            match l, r with
            | .rstr a, .rstr b => .inl (.rstr (a ++ b))
            | .rtuple a, .rtuple b => .inl (.rtuple (a ++ b))
            | .rref a, .rref b => .inr (((heap.get? a).getD []) ++ ((heap.get? b).getD []))
            | _, _ => .inl .rnone
    | .sub =>
        match intLike l, intLike r with
        | some a, some b => .inl (.rint (a - b))
        | _, _ =>
          match numLike l, numLike r with
          | some a, some b => .inl (.rfloat (a - b))
          | _, _ => .inl .rnone
    | .mult =>
        match intLike l, intLike r with
        | some a, some b => .inl (.rint (a * b))
        | _, _ =>
          match numLike l, numLike r with
          | some a, some b => .inl (.rfloat (a * b))
          | _, _ =>
            match l, r with
            | .rstr s, _ =>
                match intLike r with
                | some n => .inl (.rstr (String.join (List.replicate n.toNat s)))
                | none => .inl .rnone
            | _, .rstr s =>
                match intLike l with
                | some n => .inl (.rstr (String.join (List.replicate n.toNat s)))
                | none => .inl .rnone
            | .rref a, _ =>
                match intLike r with
                | some n => .inr (List.flatten (List.replicate n.toNat ((heap.get? a).getD [])))
                | none => .inl .rnone
            | _, _ => .inl .rnone
    | .div =>
        if pyEqZero r then .inl (.rfloat 0)
        else
          match numLike l, numLike r with
          | some a, some b => .inl (.rfloat (a / b))
          | _, _ => .inl .rnone
    | .floorDiv =>
        if pyEqZero r then .inl (.rint 0)
        else
          match intLike l, intLike r with
          | some a, some b => .inl (.rint (Int.fdiv a b))
          | _, _ =>
            match numLike l, numLike r with
            | some a, some b => .inl (.rfloat ((⌊a / b⌋ : Int) : Rat))
            | _, _ => .inl .rnone
    | .mod =>
        if pyEqZero r then .inl (.rint 0)
        else
          match intLike l, intLike r with
          | some a, some b => .inl (.rint (Int.fmod a b))
          | _, _ =>
            match numLike l, numLike r with
            | some a, some b => .inl (.rfloat (a - b * ((⌊a / b⌋ : Int) : Rat)))
            | _, _ => .inl .rnone
    | .pow =>
        match intLike l, intLike r with
        | some a, some b =>
            if 0 ≤ b then .inl (.rint (a ^ b.toNat)) else .inl (.rfloat ((a : Rat) ^ b))
        | _, _ =>
          match numLike l, intLike r with
          | some a, some b => .inl (.rfloat (a ^ b))
          | _, _ => .inl .rnone
    | .lshift =>
        match intLike l, intLike r with
        | some a, some b =>
            if 0 ≤ b then .inl (.rint (a * (2 ^ b.toNat : Int))) else .inl .rnone
        | _, _ => .inl .rnone
    | .rshift =>
        match intLike l, intLike r with
        | some a, some b =>
            if 0 ≤ b then .inl (.rint (Int.fdiv a (2 ^ b.toNat : Int))) else .inl .rnone
        | _, _ => .inl .rnone
    | .bitOr =>
        match l, r with
        | .rint (.ofNat a), .rint (.ofNat b) => .inl (.rint (Int.ofNat (a ||| b)))
        | _, _ => .inl .rnone
    | .bitXor =>
        match l, r with
        | .rint (.ofNat a), .rint (.ofNat b) => .inl (.rint (Int.ofNat (a ^^^ b)))
        | _, _ => .inl .rnone
    | .bitAnd =>
        match l, r with
        | .rint (.ofNat a), .rint (.ofNat b) => .inl (.rint (Int.ofNat (a &&& b)))
        | _, _ => .inl .rnone

/-- `_apply_operator` as the tracer invokes it: the pure dispatch above,
with the fresh list (when the operation concatenates or replicates lists)
allocated on the heap. -/
def applyOperator (op : BinOp) (l r : RVal) : M RVal := do
  let st ← mGet
  match applyOperatorCore st.ctx.heap op l r with
  | .inl v => pure v
  | .inr xs => allocList xs

/-- Subscript read `obj[index]` with the lenient
`except (KeyError, IndexError, TypeError): return None` of
`_eval_expression`'s `ast.Subscript` arm. -/
def pySubscript (heap : List (List RVal)) (obj idx : RVal) : RVal :=
  match obj with
  | .rref a =>
      match intLike idx with
      | some i => (pyIndex ((heap.get? a).getD []) i).getD .rnone
      | none => .rnone
  | .rtuple es =>
      match intLike idx with
      | some i => (pyIndex es i).getD .rnone
      | none => .rnone
  | .rstr s =>
      match intLike idx with
      | some i => (pyIndex s.toList i).map (fun c => RVal.rstr (String.mk [c])) |>.getD .rnone
      | none => .rnone
  | _ => .rnone

/-- `ExecutionContext.track_heap_object` (models.py lines 208-236) for a list
at canonical address `a`: if the identity is already tracked the existing
`HeapObject` is kept untouched (this is the write-once behaviour claim C10
is about); otherwise a new entry is appended recording type name, the deep
copy of the current value, the size estimate, and the contained references.
Returns the tracker entry (Python returns `obj_id`, which the caller
immediately uses to index `heap_tracker`). -/
def trackHeapObject (a : Nat) : M HeapObjectC := do
  let st ← mGet
  match lookupA st.ctx.heap_tracker a with
  | some h => pure h
  | none =>
      let xs := (st.ctx.heap.get? a).getD []
      let h : HeapObjectC :=
        { addr := a
          type_name := "list"
          value := deepCopyTop st.ctx.heap (.rref a)
          size := sizeOfList xs
          references := listRefs xs }
      mModifyCtx (fun c => { c with heap_tracker := c.heap_tracker ++ [(a, h)] })
      pure h

/-- The variable-filtering and heap-snapshot loop of
`ExecutionContext.create_step` (models.py lines 253-266): walk the current
bindings in insertion order, drop dunder names (callables and modules cannot
occur in the embedded fragment), deep-copy the kept values (the deep copy
`ExecutionStep.__post_init__` performs on `variables_state`), and record
every mutable container into `current_heap` via the tracker.  Duplicate
container occurrences collapse to their first position, matching `dict`
insertion semantics (later writes store the identical tracker entry). -/
def snapshotVars : List (String × RVal) → M (List (String × SnapVal) × List (Nat × HeapObjectC))
  | [] => pure ([], [])
  | (name, v) :: rest =>
      if strStartsWith name "__" then snapshotVars rest
      else do
        let st ← mGet
        let sv := deepCopyTop st.ctx.heap v
        match v with
        | .rref a => do
            let h ← trackHeapObject a
            let (vars, hp) ← snapshotVars rest
            pure ((name, sv) :: vars, (a, h) :: hp.filter (fun p => p.1 ≠ a))
        | _ => do
            let (vars, hp) ← snapshotVars rest
            pure ((name, sv) :: vars, hp)

/-- `ExecutionContext.create_step` (models.py lines 238-284): bump the step
counter, enforce the budget (a bare `RuntimeError` in the source), snapshot
the filtered variables and the touched heap objects, and produce the
immutable step.  `memory_usage` mirrors `self.memory_usage`, which the
source never updates from its initial `0`. -/
def createStep (stepType : StepType) (source_code : String)
    (expression_value : Option RVal) (condition_result : Option Bool) : M StepCore := do
  mModifyCtx (fun c => { c with step_count := c.step_count + 1 })
  let st ← mGet
  if st.ctx.step_count > st.ctx.max_steps then
    mThrow (.runtime "Exceeded max steps. Your code is probably stuck in a loop.")
  else do
    let (vars, hp) ← snapshotVars st.ctx.names
    let st' ← mGet
    pure
      { step_number := st'.ctx.step_count
        line_number := st'.ctx.current_line
        column_number := st'.ctx.current_column
        step_type := stepType
        source_code := source_code
        variables_state := vars
        stdout_snapshot := st'.ctx.stdout_buffer
        stderr_snapshot := ""
        heap_state := hp
        expression_value := expression_value
        condition_result := condition_result
        memory_usage := 0 }

/-- `step = context.create_step(...)` immediately followed by
`tracer.steps.append(step)` — the pairing used at every instrumentation
point in tracer.py. -/
def emitStep (stepType : StepType) (source_code : String)
    (expression_value : Option RVal) (condition_result : Option Bool) : M Unit := do
  let s ← createStep stepType source_code expression_value condition_result
  mPushStep s

/-- `context.current_line = node.lineno; context.current_column = …`. -/
def setPos (line col : Nat) : M Unit :=
  mModifyCtx (fun c => { c with current_line := line, current_column := col })

/-- Expression fragment of the supported grammar (`_eval_expression`). -/
inductive Expr where
  | const (v : RVal)
  | name (id : String)
  | listLit (elts : List Expr)
  | tupleLit (elts : List Expr)
  | binOp (op : BinOp) (left right : Expr)
  | unaryOp (op : UnaryOp) (operand : Expr)
  | compare (left : Expr) (rest : List (CmpOp × Expr))
  | subscript (value slice : Expr)
deriving Repr

/-- Assignment targets (`_assign_value`'s three supported shapes). -/
inductive Target where
  | tname (id : String)
  | tsubscript (value slice : Expr)
  | ttuple (elts : List Target)
deriving Repr

/-- Statement fragment.  Each statement carries its position and, where the
handlers call `ast.unparse`, the unparsed source text recorded into steps. -/
inductive Stmt where
  | assign (targets : List Target) (value : Expr) (lineno col : Nat) (src : String)
  | augAssign (target : Target) (op : BinOp) (value : Expr) (lineno col : Nat) (src : String)
  | ifStmt (test : Expr) (body orelse : List Stmt) (lineno col : Nat) (srcTest : String)
  | whileStmt (test : Expr) (body : List Stmt) (lineno col : Nat) (srcTest : String)
  | forStmt (target : Target) (iter : Expr) (body : List Stmt) (lineno col : Nat) (src : String)
  | exprStmt (value : Expr) (lineno col : Nat)
deriving Repr

/-- An `ast.AugAssign` target re-read as an expression
(`tracer._eval_expression(node.target, context)`).  The Python grammar
types `ast.AugAssign.target` as `Name | Attribute | Subscript` — a tuple
target is a `SyntaxError` before the tracer ever runs — so only the first
two arms are reachable from a parsed program; the unreachable tuple arm
is mapped to an empty display. -/
def targetToExpr : Target → Expr
  | .tname id => .name id
  | .tsubscript v s => .subscript v s
  | .ttuple _ => .tupleLit []

/-- The materialized item list Python's `for item in iterable:` walks.
(The source iterates the live object; the claims never mutate the iterable
inside the loop, where the snapshot taken here could differ.) -/
def pyIterate (heap : List (List RVal)) : RVal → Option (List RVal)
  | .rref a => some ((heap.get? a).getD [])
  | .rtuple es => some es
  | .rstr s => some (s.toList.map (fun c => RVal.rstr (String.mk [c])))
  | _ => none

/-- `len(value)` where defined (`None` models `TypeError`). -/
def pyLenOpt (heap : List (List RVal)) : RVal → Option Nat
  | .rref a => some ((heap.get? a).getD []).length
  | .rtuple es => some es.length
  | .rstr s => some s.toList.length
  | _ => none

mutual

/-- `ExecutionTracer._eval_expression` on the embedded fragment.
Fuel-indexed; every recursive call spends one unit. -/
def evalExpr : Nat → Expr → M RVal
  | 0, _ => mThrow .fuel
  | fuel + 1, e =>
    match e with
    | .const v => pure v
    | .name id => do
        let st ← mGet
        pure ((lookupA st.ctx.names id).getD .rnone)
    | .listLit elts => do
        let vs ← evalList fuel elts
        allocList vs
    | .tupleLit elts => do
        let vs ← evalList fuel elts
        pure (.rtuple vs)
    | .binOp op l r => do
        let lv ← evalExpr fuel l
        let rv ← evalExpr fuel r
        applyOperator op lv rv
    | .unaryOp op e₁ => do
        let v ← evalExpr fuel e₁
        let st ← mGet
        pure (applyUnaryOperator st.ctx.heap op v)
    | .compare l rest => do
        let lv ← evalExpr fuel l
        let b ← evalCmpRest fuel lv rest
        pure (.rbool b)
    | .subscript v s => do
        let obj ← evalExpr fuel v
        let idx ← evalExpr fuel s
        let st ← mGet
        pure (pySubscript st.ctx.heap obj idx)

def evalList : Nat → List Expr → M (List RVal)
  | 0, _ => mThrow .fuel
  | _ + 1, [] => pure []
  | fuel + 1, e :: rest => do
      let v ← evalExpr fuel e
      let vs ← evalList fuel rest
      pure (v :: vs)

/-- The chained-comparison loop of `_eval_expression`'s `ast.Compare` arm:
short-circuits on the first failing comparison, threading the previous
right operand as the next left operand. -/
def evalCmpRest : Nat → RVal → List (CmpOp × Expr) → M Bool
  | 0, _, _ => mThrow .fuel
  | _ + 1, _, [] => pure true
  | fuel + 1, lv, (op, comp) :: rest => do
      let rv ← evalExpr fuel comp
      let st ← mGet
      if applyComparison st.ctx.heap op lv rv then evalCmpRest fuel rv rest
      else pure false

end

mutual

/-- `ExecutionTracer._assign_value` (tracer.py lines 595-619): name targets
update the namespace and track mutable containers; subscript targets mutate
the heap with silent failure; tuple targets unpack index-wise. -/
def assignValue : Nat → Target → RVal → M Unit
  | 0, _, _ => mThrow .fuel
  | fuel + 1, t, value =>
    match t with
    | .tname id => do
        mModifyCtx (fun c => { c with names := upsertA c.names id value })
        match value with
        | .rref a => do
            let _ ← trackHeapObject a
            pure ()
        | _ => pure ()
    | .tsubscript ve se => do
        let obj ← evalExpr fuel ve
        let idx ← evalExpr fuel se
        if obj ≠ .rnone ∧ idx ≠ .rnone then
          match obj, intLike idx with
          | .rref a, some i =>
              mModifyCtx (fun c =>
                { c with heap := c.heap.set a (listStore ((c.heap.get? a).getD []) i value) })
          | _, _ => pure ()
        else pure ()
    | .ttuple elts => assignTupleElems fuel elts value 0

/-- The `for i, elt in enumerate(target.elts)` unpacking loop: assigns
`value[i]` to the i-th element whenever `value` is not `None` and
`i < len(value)` (a non-sized `value` raises `TypeError` at `len`). -/
def assignTupleElems : Nat → List Target → RVal → Nat → M Unit
  | 0, _, _, _ => mThrow .fuel
  | _ + 1, [], _, _ => pure ()
  | fuel + 1, t :: rest, value, i =>
    match value with
    | .rnone => assignTupleElems fuel rest value (i + 1)
    | _ => do
        let st ← mGet
        match pyLenOpt st.ctx.heap value with
        | some n =>
            if i < n then do
              assignValue fuel t (pySubscript st.ctx.heap value (.rint i))
              assignTupleElems fuel rest value (i + 1)
            else assignTupleElems fuel rest value (i + 1)
        | none => mThrow (.pyExc "TypeError")

end

/-- `for target in node.targets: tracer._assign_value(target, value, …)`. -/
def assignTargets : Nat → List Target → RVal → M Unit
  | 0, _, _ => mThrow .fuel
  | _ + 1, [], _ => pure ()
  | fuel + 1, t :: rest, value => do
      assignValue fuel t value
      assignTargets fuel rest value

mutual

/-- `ExecutionTracer._execute_node` on the embedded statement fragment:
the step-budget check guards every node execution (`ResourceError`), then
the registered handlers run (tracer.py lines 366-379, 56-174).
`maxSteps` and `captureExpr` are the two attributes the execution path
reads from `self.config` (`max_steps` in `_execute_node`,
`capture_expressions` in the `ast.Expr` arm). -/
def execStmt (maxSteps : Nat) (captureExpr : Bool) : Nat → Stmt → M Unit
  | 0, _ => mThrow .fuel
  | fuel + 1, s => do
      let st ← mGet
      if st.ctx.step_count ≥ maxSteps then
        mThrow (.resource "steps")
      else
        match s with
        | .assign targets value line col src => do
            setPos line col
            let v ← evalExpr fuel value
            assignTargets fuel targets v
            emitStep .ASSIGNMENT src (some v) none
        | .augAssign t op value line col src => do
            setPos line col
            let tv ← evalExpr fuel (targetToExpr t)
            let ov ← evalExpr fuel value
            let res ← applyOperator op tv ov
            assignValue fuel t res
            emitStep .ASSIGNMENT src (some res) none
        | .ifStmt test body orelse line col srcTest => do
            setPos line col
            let c ← evalExpr fuel test
            let st ← mGet
            let cb := pyTruthy st.ctx.heap c
            emitStep .CONDITION srcTest none (some cb)
            if cb then execStmts maxSteps captureExpr fuel body
            else execStmts maxSteps captureExpr fuel orelse
        | .whileStmt test body line col srcTest => do
            setPos line col
            emitStep .LOOP_START srcTest none none
            whileLoop maxSteps captureExpr fuel test body
        | .forStmt target iter body line col src => do
            setPos line col
            let it ← evalExpr fuel iter
            match it with
            | .rnone => pure ()
            | _ => do
                emitStep .LOOP_START src none none
                let st ← mGet
                match pyIterate st.ctx.heap it with
                | some items => forIter maxSteps captureExpr fuel target items body
                | none => mThrow (.pyExc "TypeError")
        | .exprStmt e _ _ => do
            let v ← evalExpr fuel e
            if captureExpr then emitStep .EXPRESSION "" (some v) none
            else pure ()

def execStmts (maxSteps : Nat) (captureExpr : Bool) : Nat → List Stmt → M Unit
  | 0, _ => mThrow .fuel
  | _ + 1, [] => pure ()
  | fuel + 1, s :: rest => do
      execStmt maxSteps captureExpr fuel s
      execStmts maxSteps captureExpr fuel rest

/-- The `ast.While` handler's loop body: test, body, `LOOP_ITERATION` step,
repeat; `LOOP_END` step on exit. -/
def whileLoop (maxSteps : Nat) (captureExpr : Bool) : Nat → Expr → List Stmt → M Unit
  | 0, _, _ => mThrow .fuel
  | fuel + 1, test, body => do
      let c ← evalExpr fuel test
      let st ← mGet
      if pyTruthy st.ctx.heap c then do
        execStmts maxSteps captureExpr fuel body
        emitStep .LOOP_ITERATION "" none none
        whileLoop maxSteps captureExpr fuel test body
      else emitStep .LOOP_END "" none none

/-- The `ast.For` handler's loop: per item, assign the loop target, run the
body, emit `LOOP_ITERATION`; `LOOP_END` after the last item. -/
def forIter (maxSteps : Nat) (captureExpr : Bool) : Nat → Target → List RVal → List Stmt → M Unit
  | 0, _, _, _ => mThrow .fuel
  | _ + 1, _, [], _ => emitStep .LOOP_END "" none none
  | fuel + 1, target, item :: rest, body => do
      assignValue fuel target item
      execStmts maxSteps captureExpr fuel body
      emitStep .LOOP_ITERATION "" none none
      forIter maxSteps captureExpr fuel target rest body

end

/-- `_execute_node` applied to the `ast.Module` root: the budget check, then
the statement list. -/
def execModule (maxSteps : Nat) (captureExpr : Bool) (fuel : Nat) (prog : List Stmt) :
    M Unit := do
  let st ← mGet
  if st.ctx.step_count ≥ maxSteps then mThrow (.resource "steps")
  else execStmts maxSteps captureExpr fuel prog

/-- The fresh `ExecutionContext` built by `ExecutionTracer.trace` together
with `_execute_tree`'s namespace setup (`__name__`; `__builtins__` holds
only callables and is filtered from every snapshot, so it is not modelled). -/
def initState (cfg : TracerConfig) : TState :=
  { ctx :=
      { current_line := 0
        current_column := 0
        step_count := 0
        names := [("__name__", .rstr "__main__")]
        heap := []
        heap_tracker := []
        stdout_buffer := ""
        max_steps := cfg.max_steps }
    steps := [] }

/-- `ExecutionTracer.trace` (tracer.py lines 263-305) on an already-parsed
program: run the tree, re-raise `TimeoutError` unchanged, wrap any other
exception (including the internal `ResourceError`/`RuntimeError` budget
faults) into an `ExecutionError` carrying `context.current_line` and the
cause's class name; on success return the recorded steps.

Stamping: each returned step carries this run's `datetime.now()` /
`perf_counter_ns()` values and `id()` labels, supplied by `env`.
The configured `max_execution_time_seconds` is deliberately unread: the
source's `_monitor_timeout` raises `TimeoutError` inside the daemon
monitoring thread (tracer.py lines 345-354), and a Python exception raised
in one thread never propagates into another thread's call stack, so the
traced execution itself is unaffected by the wall-clock limit.
`Fault.fuel` is passed through untouched (embedding artifact). -/
def trace (cfg : TracerConfig) (env : Env) (prog : List Stmt) (fuel : Nat) :
    Except Fault (List ExecutionStep) :=
  match execModule cfg.max_steps cfg.capture_expressions fuel prog (initState cfg) with
  | (Except.ok _, st) => Except.ok (st.steps.map (stampStep env))
  | (Except.error f, st) =>
    match f with
    | .timeout s => Except.error (.timeout s)
    | .fuel => Except.error .fuel
    | f => Except.error (.execution st.ctx.current_line (faultCauseName f))

/-- `CommandType` from adapters/base.py. -/
inductive CommandType where
  | HIGHLIGHT | SWAP | MOVE | COMPARE | SET_VALUE
  | VISIT | TRAVERSE | MARK | UNMARK | CREATE | DELETE
  | PUSH | POP | ENQUEUE | DEQUEUE | COLOR_CHANGE | PAUSE | LABEL | CLEAR
deriving DecidableEq, Repr

/-- `AnimationCommand` from adapters/base.py (defaults as in `__post_init__`;
the free-form `values`/`metadata` dicts are string-keyed snapshots). -/
structure AnimationCommand where
  command_type : CommandType
  target_indices : List Int := []
  target_ids : List String := []
  values : List (String × SnapVal) := []
  duration_ms : Nat := 300
  delay_ms : Nat := 0
  metadata : List (String × SnapVal) := []
deriving DecidableEq, Repr

/-- `VisualizationAdapter.create_highlight_command`. -/
def create_highlight_command (indices : List Int) (color : String := "#FFD700")
    (duration : Nat := 300) : AnimationCommand :=
  { command_type := .HIGHLIGHT
    target_indices := indices
    values := [("color", .vstr color)]
    duration_ms := duration }

/-- `VisualizationAdapter.create_swap_command`. -/
def create_swap_command (index1 index2 : Int) (duration : Nat := 500) : AnimationCommand :=
  { command_type := .SWAP
    target_indices := [index1, index2]
    duration_ms := duration
    metadata := [("swap_type", .vstr "position")] }

/-- `VisualizationAdapter.create_compare_command`. -/
def create_compare_command (index1 index2 : Int) (result : Bool)
    (duration : Nat := 200) : AnimationCommand :=
  { command_type := .COMPARE
    target_indices := [index1, index2]
    values := [("comparison_result", .vbool result)]
    duration_ms := duration }

/-- `VisualizationAdapter.create_pause_command`. -/
def create_pause_command (duration : Nat := 100) : AnimationCommand :=
  { command_type := .PAUSE, duration_ms := duration }

/-- The merge condition of `optimize_animations`: identical command type and
identical target indices. -/
def mergeableCmd (a b : AnimationCommand) : Bool :=
  a.command_type == b.command_type && a.target_indices == b.target_indices

/-- The folding loop of `optimize_animations`: `prev` is the last command
appended to the optimized sequence; a mergeable successor adds its duration
to `prev` (in-place in the source) and is dropped. -/
def optimizeAux (prev : AnimationCommand) : List AnimationCommand → List AnimationCommand
  | [] => [prev]
  | c :: rest =>
      if mergeableCmd c prev then
        optimizeAux { prev with duration_ms := prev.duration_ms + c.duration_ms } rest
      else prev :: optimizeAux c rest

/-- `VisualizationAdapter.optimize_animations` (base.py lines 222-242):
merge adjacent commands of identical type and identical targets, summing
durations; sequences shorter than two commands are returned unchanged. -/
def optimize_animations (cmds : List AnimationCommand) : List AnimationCommand :=
  if cmds.length < 2 then cmds
  else
    match cmds with
    | [] => []
    | c :: rest => optimizeAux c rest

/-- The mutation records produced by `ArrayAdapter.detect_array_changes`
(the `'type'` field of the mutation dicts).  `compareM` and `accessM` have
consuming branches in `generate_animations` but are never produced by
`detect_array_changes`. -/
inductive ArrayMutation where
  | insertM (index : Int) (value : SnapVal)
  | removeM (index : Int)
  | swapM (index1 index2 : Int)
  | compareM (index1 index2 : Int) (result : Bool)
  | valueChangeM (index : Int) (old_value new_value : SnapVal)
  | accessM (index : Int)
deriving DecidableEq, Repr

/-- `ArrayAdapter.detect_array_changes` (array_adapter.py lines 183-270):
size changes report a tail insert/remove; an exact two-index value exchange
reports a swap; a single changed index whose new value occurred elsewhere
reports a guessed partial swap; any remaining two-index delta still reports
a swap; all other deltas report per-index value changes. -/
def ArrayAdapter_detect_array_changes (old new : List SnapVal) : List ArrayMutation :=
  if old.length ≠ new.length then
    if old.length < new.length then [.insertM ((new.length : Int) - 1) (new.getLastD .vnone)]
    else [.removeM ((old.length : Int) - 1)]
  else
    let changed := (List.range old.length).filter (fun i => old.getD i .vnone != new.getD i .vnone)
    let idx1 := changed.getD 0 0
    let idx2 := changed.getD 1 0
    let valueFallback :=
      changed.map (fun i =>
        ArrayMutation.valueChangeM (Int.ofNat i) (old.getD i .vnone) (new.getD i .vnone))
    if changed.length = 2 ∧ old.getD idx1 .vnone = new.getD idx2 .vnone ∧
        old.getD idx2 .vnone = new.getD idx1 .vnone then
      [.swapM (Int.ofNat idx1) (Int.ofNat idx2)]
    else if changed.length = 1 then
      let c := changed.getD 0 0
      let new_val := new.getD c .vnone
      if old.contains new_val then
        let old_positions :=
          (List.range old.length).filter (fun i => old.getD i .vnone == new_val && i ≠ c)
        if ¬ old_positions.isEmpty then
          let partner :=
            if 0 < c ∧ old.getD (c - 1) .vnone = new_val then c - 1
            else if c < old.length - 1 ∧ old.getD (c + 1) .vnone = new_val then c + 1
            else old_positions.headD 0
          [.swapM (Int.ofNat (min c partner)) (Int.ofNat (max c partner))]
        else valueFallback
      else valueFallback
    else if changed.length = 2 then [.swapM (Int.ofNat idx1) (Int.ofNat idx2)]
    else valueFallback

/-- `ArrayAdapter.is_comparison_code`. -/
def is_comparison_code (source_code : String) : Bool :=
  [">", "<", ">=", "<=", "==", "!="].any (fun op => strContains source_code op)

mutual

/-- Scanner equivalent of `re.findall(r"\w+\[([^\]]+)\]", source_code)`
(`ArrayAdapter.extract_indices_from_code`): a non-empty bracketed chunk
counts when the opening bracket is preceded by a word character. -/
def scanBrackets : List Char → Option Char → List String
  | [], _ => []
  | c :: rest, prev =>
      if c == '[' && (match prev with | some p => p.isAlphanum || p == '_' | none => false) then
        grabBracket rest []
      else scanBrackets rest (some c)

def grabBracket : List Char → List Char → List String
  | [], _ => []
  | ']' :: tail, acc =>
      (if acc.isEmpty then [] else [String.mk acc.reverse]) ++ scanBrackets tail (some ']')
  | c :: rest, acc => grabBracket rest (c :: acc)

end

def charsTrim (cs : List Char) : List Char :=
  ((cs.dropWhile Char.isWhitespace).reverse.dropWhile Char.isWhitespace).reverse

def digitsToNat (cs : List Char) : Option Nat :=
  if cs.isEmpty then none
  else if cs.all Char.isDigit then
    some (cs.foldl (fun acc c => acc * 10 + (c.toNat - 48)) 0)
  else none

/-- `int(match)` with Python's whitespace stripping and optional sign;
`none` models the `ValueError` the `except` swallows. -/
def parsePyInt (s : String) : Option Int :=
  match charsTrim s.toList with
  | '-' :: rest => (digitsToNat rest).map (fun n => -(n : Int))
  | '+' :: rest => (digitsToNat rest).map (fun n => (n : Int))
  | cs => (digitsToNat cs).map (fun n => (n : Int))

/-- The per-match classification of `extract_indices_from_code`: integer
literals parse directly; the variables `i`, `j` and `j + 1` map to the
placeholder indices 0, 1 and 2; anything else is dropped. -/
def indexFromMatch (m : String) : Option Int :=
  match parsePyInt m with
  | some i => some i
  | none =>
      if m = "i" then some 0
      else if m = "j" then some 1
      else if strContains m "j + 1" || strContains m "j+1" then some 2
      else none

/-- `ArrayAdapter.extract_indices_from_code`. -/
def extract_indices_from_code (source_code : String) : List Int :=
  (scanBrackets source_code.toList none).filterMap indexFromMatch

/-- Python `>` on snapshot values (`array[i] > array[i + 1]` in
`is_array_sorted`); `none` models an exception (the `except: return False`).
Container ordering is outside the modelled fragment. -/
def pyGtSnap (x y : SnapVal) : Option Bool :=
  match x, y with
  | .vint a, .vint b => some (decide (b < a))
  | .vint a, .vfloat b => some (decide (b < (a : Rat)))
  | .vfloat a, .vint b => some (decide ((b : Rat) < a))
  | .vfloat a, .vfloat b => some (decide (b < a))
  | .vbool a, .vbool b => some (decide ((if b then (1 : Int) else 0) < (if a then 1 else 0)))
  | .vstr a, .vstr b => some (strLt b a)
  | _, _ => none

def sortedPairsCheck : List SnapVal → Bool
  | x :: y :: rest => (pyGtSnap x y == some false) && sortedPairsCheck (y :: rest)
  | _ => true

/-- `ArrayAdapter.is_array_sorted` on the final tracked snapshot
(`None` and short arrays count as sorted). -/
def is_array_sorted : Option (List SnapVal) → Bool
  | none => true
  | some a => if a.length ≤ 1 then true else sortedPairsCheck a

/-- The mutation-to-command translation inside
`ArrayAdapter.generate_animations` (lines 74-114).  `insert`/`remove`
mutations have no branch there and produce nothing. -/
def mutationCommands (muts : List ArrayMutation) : List AnimationCommand :=
  muts.filterMap (fun m =>
    match m with
    | .swapM i j => some (create_swap_command i j 500)
    | .compareM i j r => some (create_compare_command i j r 300)
    | .valueChangeM i ov nv =>
        some
          { command_type := .SET_VALUE
            target_indices := [i]
            values := [("old_value", ov), ("new_value", nv)]
            duration_ms := 400 }
    | .accessM i => some (create_highlight_command [i] "#00FF00" 200)
    | .insertM _ _ => none
    | .removeM _ => none)

/-- The source-pattern section of `generate_animations` (lines 117-131):
runs only for steps with non-empty source text; emits a tentative `COMPARE`
when the source contains a comparison with two extractable indices, and a
pause for `LOOP_ITERATION` steps (whose recorded source is always empty, so
the pause branch is dead in traces produced by this tracer). -/
def sourceCommands (step : ExecutionStep) : List AnimationCommand :=
  if step.source_code ≠ "" then
    (if is_comparison_code step.source_code then
      let idx := extract_indices_from_code step.source_code
      if 2 ≤ idx.length then
        [create_compare_command (idx.getD 0 0) (idx.getD 1 0) true 250]
      else []
    else []) ++
    (if step.step_type = .LOOP_ITERATION then [create_pause_command 100] else [])
  else []

/-- The main loop of `ArrayAdapter.generate_animations` (lines 50-135):
walk the steps, skip steps where the tracked variable is absent or not a
list, diff against the previous snapshot, then apply the source patterns;
`previous_array_state` is the copied current list, or `None` when falsy. -/
def arrayGenLoop (tracked : Option String) :
    List ExecutionStep → Option (List SnapVal) → List AnimationCommand →
    List AnimationCommand × Option (List SnapVal)
  | [], prev, acc => (acc, prev)
  | step :: rest, prev, acc =>
    match tracked.bind (lookupA step.variables_state) with
    | some (.vlist cur) =>
        let acc :=
          acc ++
            (match prev with
             | some old => mutationCommands (ArrayAdapter_detect_array_changes old cur)
             | none => []) ++
            sourceCommands step
        arrayGenLoop tracked rest (if cur.isEmpty then none else some cur) acc
    | some _ => arrayGenLoop tracked rest prev acc
    | none => arrayGenLoop tracked rest prev acc

/-- `ArrayAdapter.add_sorted_celebration` (lines 318-338): guarded on
`self.array_snapshot_timeline`, the per-instance list initialized in
`ArrayAdapter.__init__` and appended to nowhere in the class, which the
caller passes here verbatim. -/
def add_sorted_celebration (array_snapshot_timeline : List (List SnapVal))
    (seq : List AnimationCommand) : List AnimationCommand :=
  match array_snapshot_timeline.getLast? with
  | some lastArr =>
      if ¬ lastArr.isEmpty then
        seq ++
          ((List.range lastArr.length).map (fun i =>
            { command_type := .HIGHLIGHT
              target_indices := [(i : Int)]
              values := [("color", .vstr "#00FF00")]
              duration_ms := 100
              delay_ms := i * 50 })) ++
          [create_pause_command 500]
      else seq
  | none => seq

/-- `ArrayAdapter.generate_animations` (lines 43-144): the step loop, then
`optimize_animations`, then — when the final snapshot is sorted — the
celebration helper applied to the never-populated snapshot timeline. -/
def ArrayAdapter_generate_animations (tracked : Option String)
    (steps : List ExecutionStep) : List AnimationCommand :=
  let r := arrayGenLoop tracked steps none []
  let seq := optimize_animations r.1
  if is_array_sorted r.2 then add_sorted_celebration [] seq else seq

def isListSnap : SnapVal → Bool
  | .vlist _ => true
  | _ => false

def firstListVar : List (String × SnapVal) → Option String
  | [] => none
  | (n, v) :: rest => if isListSnap v then some n else firstListVar rest

/-- The auto-detection side effect of `ArrayAdapter.can_handle`: the first
list-valued variable becomes the tracked array. -/
def ArrayAdapter_detect_name : List ExecutionStep → Option String
  | [] => none
  | s :: rest =>
    match firstListVar s.variables_state with
    | some n => some n
    | none => ArrayAdapter_detect_name rest

/-- `ArrayAdapter.can_handle`. -/
def ArrayAdapter_can_handle (steps : List ExecutionStep) : Bool :=
  if steps.isEmpty then false
  else steps.any (fun s => s.variables_state.any (fun p => isListSnap p.2))

/-- `can_handle` followed by `generate_animations` on the same instance —
the registry's usage pattern for the array adapter. -/
def ArrayAdapter_run (steps : List ExecutionStep) : List AnimationCommand :=
  ArrayAdapter_generate_animations (ArrayAdapter_detect_name steps) steps

def isListOrSetSnap : SnapVal → Bool
  | .vlist _ => true
  | .vset _ => true
  | _ => false

/-- `isinstance(keys[0], (str, int, float, bool))`. -/
def isPrimitiveKey : SnapVal → Bool
  | .vstr _ => true
  | .vint _ => true
  | .vfloat _ => true
  | .vbool _ => true
  | _ => false

/-- `any(kw in var_name.lower() for kw in keywords)`. -/
def anyKeyword (name : String) (kws : List String) : Bool :=
  kws.any (fun kw => strContains (strLower name) kw)

def dictHasKey (v : SnapVal) (key : String) : Bool :=
  match v with
  | .vdict kvs => (kvs.map Prod.fst).contains (SnapVal.vstr key)
  | _ => false

/-- `HeapAdapter.can_handle` (heap_adapter.py). -/
def HeapAdapter_can_handle (steps : List ExecutionStep) : Bool :=
  if steps.isEmpty then false
  else
    steps.any (fun step =>
      step.variables_state.any (fun p =>
        anyKeyword p.1 ["heap", "pq", "priority", "heapq", "min_heap", "max_heap"] &&
          (match p.2 with | .vlist l => !l.isEmpty | _ => false)) ||
      (step.source_code ≠ "" &&
        (let code := strLower step.source_code
         strContains code "heapq" || strContains code "heappush" ||
           strContains code "heappop" || strContains code "heapify")))

/-- `TreeAdapter.can_handle` (tree_adapter.py lines 22-55): variable-name
keywords, or a dict with both `left` and `right` keys (binary node), or a
dict with a `children` key (n-ary node), or source-text patterns. -/
def TreeAdapter_can_handle (steps : List ExecutionStep) : Bool :=
  if steps.isEmpty then false
  else
    steps.any (fun step =>
      step.variables_state.any (fun p =>
        anyKeyword p.1
          ["tree", "root", "bst", "avl", "trie", "heap",
           "left", "right", "children", "parent", "binary"] ||
        (dictHasKey p.2 "left" && dictHasKey p.2 "right") ||
        dictHasKey p.2 "children") ||
      (step.source_code ≠ "" &&
        (let code := strLower step.source_code
         strContains code ".left" || strContains code ".right" || strContains code "root")))

/-- `MatrixAdapter.can_handle`: a non-empty list whose first element is a
list (the keyword branch for 1-D numeric lists only `pass`es). -/
def MatrixAdapter_can_handle (steps : List ExecutionStep) : Bool :=
  if steps.isEmpty then false
  else
    steps.any (fun step =>
      step.variables_state.any (fun p =>
        match p.2 with
        | .vlist l =>
            if l.isEmpty then false
            else
              match l.getD 0 .vnone with
              | .vlist _ => true
              | _ => false
        | _ => false))

/-- The per-variable probe of `HashMapAdapter.can_handle`
(hashmap_adapter.py lines 29-44): a non-empty dict with a primitive first
key matches when its values are not all lists/sets, or — the graph-shaped
escape hatch — when the variable name contains a hash-map keyword. -/
def hashmapVarTriggers (name : String) (v : SnapVal) : Bool :=
  match v with
  | .vdict kvs =>
      !kvs.isEmpty &&
        (match kvs.getD 0 (.vnone, .vnone) with
         | (k, _) => isPrimitiveKey k) &&
        (!(kvs.map Prod.snd).all isListOrSetSnap ||
          anyKeyword name
            ["hash", "map", "dict", "table", "cache", "memo",
             "counter", "freq", "count", "lookup", "index_map"])
  | _ => false

/-- `HashMapAdapter.can_handle`. -/
def HashMapAdapter_can_handle (steps : List ExecutionStep) : Bool :=
  if steps.isEmpty then false
  else steps.any (fun step => step.variables_state.any (fun p => hashmapVarTriggers p.1 p.2))

/-- `GraphAdapter.can_handle`: graph-keyword names bound to dicts/lists, or
any dict whose values are all lists/sets (vacuously, any empty dict). -/
def GraphAdapter_can_handle (steps : List ExecutionStep) : Bool :=
  if steps.isEmpty then false
  else
    steps.any (fun step =>
      step.variables_state.any (fun p =>
        (anyKeyword p.1 ["graph", "adj", "edges", "nodes", "vertices", "tree"] &&
          (match p.2 with | .vdict _ => true | .vlist _ => true | _ => false)) ||
        (match p.2 with
         | .vdict kvs => (kvs.map Prod.snd).all isListOrSetSnap
         | _ => false)))

/-- `LinkedListAdapter.can_handle`. -/
def LinkedListAdapter_can_handle (steps : List ExecutionStep) : Bool :=
  if steps.isEmpty then false
  else
    steps.any (fun step =>
      step.variables_state.any (fun p =>
        anyKeyword p.1 ["linked", "node", "head", "next", "prev", "doubly", "singly", "ll"] ||
        dictHasKey p.2 "next" || dictHasKey p.2 "prev") ||
      (step.source_code ≠ "" &&
        (let code := strLower step.source_code
         strContains code ".next" || strContains code "head" || strContains code "linkedlist")))

/-- `StackAdapter.can_handle`. -/
def StackAdapter_can_handle (steps : List ExecutionStep) : Bool :=
  if steps.isEmpty then false
  else
    steps.any (fun step =>
      (step.source_code ≠ "" &&
        (let code := strLower step.source_code
         strContains code ".pop()" && strContains code ".append(")) ||
      step.variables_state.any (fun p =>
        match p.2 with
        | .vlist _ => anyKeyword p.1 ["stack", "stk", "call_stack", "undo", "history"]
        | _ => false))

/-- `QueueAdapter._is_queue_like`: a list or `collections.deque` (deques do
not occur in the embedded fragment's snapshots). -/
def isQueueLike : SnapVal → Bool
  | .vlist _ => true
  | _ => false

/-- `QueueAdapter.can_handle` (the source-pattern branch returns `True`
unconditionally once a pattern is present). -/
def QueueAdapter_can_handle (steps : List ExecutionStep) : Bool :=
  if steps.isEmpty then false
  else
    steps.any (fun step =>
      step.variables_state.any (fun p =>
        isQueueLike p.2 && anyKeyword p.1 ["queue", "fifo", "bfs_queue", "frontier", "deque"]) ||
      (step.source_code ≠ "" &&
        (let code := strLower step.source_code
         strContains code ".pop(0)" || strContains code "deque" || strContains code "popleft")))

/-- `SetAdapter.can_handle`. -/
def SetAdapter_can_handle (steps : List ExecutionStep) : Bool :=
  if steps.isEmpty then false
  else
    steps.any (fun step =>
      step.variables_state.any (fun p => match p.2 with | .vset _ => true | _ => false) ||
      (step.source_code ≠ "" &&
        (let code := strLower step.source_code
         [".add(", ".remove(", ".discard(", ".union(", ".intersection(",
          ".difference(", ".symmetric_difference(", " | ", " & ", " - ", " ^ "].any
           (fun op => strContains code op))))

/-- `StringAdapter.can_handle`: a string of length above one with a
string-keyword name, or any string of length above five. -/
def StringAdapter_can_handle (steps : List ExecutionStep) : Bool :=
  if steps.isEmpty then false
  else
    steps.any (fun step =>
      step.variables_state.any (fun p =>
        match p.2 with
        | .vstr s =>
            1 < s.toList.length &&
              (anyKeyword p.1 ["text", "string", "str", "word", "sentence", "pattern"] ||
                5 < s.toList.length)
        | _ => false))

/-- `GenericAdapter.can_handle`: `bool(execution_steps)` — the fallback. -/
def GenericAdapter_can_handle (steps : List ExecutionStep) : Bool :=
  !steps.isEmpty

/-- `ADAPTER_PRIORITY` (registry.py lines 27-40): the fixed priority order,
most specific first, generic last. -/
def ADAPTER_PRIORITY : List (String × (List ExecutionStep → Bool)) :=
  [ ("HeapAdapter", HeapAdapter_can_handle),
    ("TreeAdapter", TreeAdapter_can_handle),
    ("MatrixAdapter", MatrixAdapter_can_handle),
    ("HashMapAdapter", HashMapAdapter_can_handle),
    ("GraphAdapter", GraphAdapter_can_handle),
    ("LinkedListAdapter", LinkedListAdapter_can_handle),
    ("StackAdapter", StackAdapter_can_handle),
    ("QueueAdapter", QueueAdapter_can_handle),
    ("ArrayAdapter", ArrayAdapter_can_handle),
    ("SetAdapter", SetAdapter_can_handle),
    ("StringAdapter", StringAdapter_can_handle),
    ("GenericAdapter", GenericAdapter_can_handle) ]

/-- `AdapterRegistry.detect_adapters` (registry.py lines 51-66): probe each
candidate in priority order, collect all matches (the embedded probes are
total, so the `except: continue` isolation is vacuous), and fall back to the
generic adapter when nothing matched. -/
def detect_adapters (steps : List ExecutionStep) : List String :=
  let matching := (ADAPTER_PRIORITY.filter (fun p => p.2 steps)).map Prod.fst
  if matching.isEmpty then ["GenericAdapter"] else matching

/-- `AdapterRegistry.get_primary_adapter`. -/
def get_primary_adapter (steps : List ExecutionStep) : Option String :=
  (detect_adapters steps).head?

/-- A canonical run environment: wall-clock and CPU clocks read the step
number, `id()` is the allocation index itself. -/
def env0 : Env := { clock := fun n => n, cpu := fun n => n, idOf := fun a => a }

/-- A second run of the same process: the same logical clocks but different
object addresses (every allocation landed one slot further). -/
def envShift : Env := { clock := fun n => n, cpu := fun n => n, idOf := fun a => a + 1 }

/-- `arr = [2, 1]` followed by `arr[0], arr[1] = arr[1], arr[0]` —
the spec's array-swap round-trip program. -/
def swapProg : List Stmt :=
  [ .assign [.tname "arr"] (.listLit [.const (.rint 2), .const (.rint 1)]) 1 0 "arr = [2, 1]",
    .assign
      [.ttuple [.tsubscript (.name "arr") (.const (.rint 0)),
                .tsubscript (.name "arr") (.const (.rint 1))]]
      (.tupleLit [.subscript (.name "arr") (.const (.rint 1)),
                  .subscript (.name "arr") (.const (.rint 0))])
      2 0 "arr[0], arr[1] = (arr[1], arr[0])" ]

/-- `x = 1` then `y = 2`: two instrumentation points. -/
def twoAssignProg : List Stmt :=
  [ .assign [.tname "x"] (.const (.rint 1)) 1 0 "x = 1",
    .assign [.tname "y"] (.const (.rint 2)) 2 0 "y = 2" ]

/-- `x = 0; while x < 5: x += 1` — a long-running loop for the
timeout claims. -/
def countLoopProg : List Stmt :=
  [ .assign [.tname "x"] (.const (.rint 0)) 1 0 "x = 0",
    .whileStmt (.compare (.name "x") [(.lt, .const (.rint 5))])
      [.augAssign (.tname "x") .add (.const (.rint 1)) 3 4 "x += 1"] 2 0 "x < 5" ]

/-- `arr = [1]` — allocates one tracked container. -/
def oneListProg : List Stmt :=
  [ .assign [.tname "arr"] (.listLit [.const (.rint 1)]) 1 0 "arr = [1]" ]

/-- A synthetic adapter-input step (what a trace of the corresponding state
would hand the adapters); command generation only reads the fields set
here. -/
def mkStep (n : Nat) (vars : List (String × SnapVal)) : ExecutionStep :=
  { step_number := n
    timestamp := n
    line_number := n
    column_number := 0
    step_type := .ASSIGNMENT
    source_code := ""
    variables_state := vars
    stdout_snapshot := ""
    stderr_snapshot := ""
    heap_state := []
    expression_value := none
    condition_result := none
    memory_usage := 0
    cpu_time_ns := n }

/-- Snapshots of `arr` while bubble-sorting `[3, 1, 2]` to completion:
two adjacent exchanges, ending sorted. -/
def bubbleSteps : List ExecutionStep :=
  [ mkStep 1 [("arr", .vlist [.vint 3, .vint 1, .vint 2])],
    mkStep 2 [("arr", .vlist [.vint 1, .vint 3, .vint 2])],
    mkStep 3 [("arr", .vlist [.vint 1, .vint 2, .vint 3])] ]

/-- A graph-shaped dict (every value a list) bound to a variable whose name
contains the hash-map keyword `memo`. -/
def memoGraphSteps : List ExecutionStep :=
  [ mkStep 1 [("memo", .vdict [(.vstr "a", .vlist [.vint 1])])] ]

/-- A nested dict with `left`/`right` keys — a binary tree node. -/
def treeNodeSteps : List ExecutionStep :=
  [ mkStep 1 [("n", .vdict [(.vstr "value", .vint 5), (.vstr "left", .vnone),
                            (.vstr "right", .vnone)])] ]

/-- Field-by-field step equality modulo the `timestamp` and `cpu_time_ns`
fields — the equivalence claim C6 asserts between two runs. -/
def stepEqExceptTime (a b : ExecutionStep) : Prop :=
  a.step_number = b.step_number ∧ a.line_number = b.line_number ∧
  a.column_number = b.column_number ∧ a.step_type = b.step_type ∧
  a.source_code = b.source_code ∧ a.variables_state = b.variables_state ∧
  a.stdout_snapshot = b.stdout_snapshot ∧ a.stderr_snapshot = b.stderr_snapshot ∧
  a.heap_state = b.heap_state ∧ a.expression_value = b.expression_value ∧
  a.condition_result = b.condition_result ∧ a.memory_usage = b.memory_usage

instance (a b : ExecutionStep) : Decidable (stepEqExceptTime a b) := by
  unfold stepEqExceptTime; infer_instance

def stepsEqExceptTime : List ExecutionStep → List ExecutionStep → Prop
  | [], [] => True
  | a :: as, b :: bs => stepEqExceptTime a b ∧ stepsEqExceptTime as bs
  | _, _ => False

instance stepsEqExceptTime.dec : ∀ xs ys, Decidable (stepsEqExceptTime xs ys)
  | [], [] => .isTrue trivial
  | [], _ :: _ => .isFalse (fun h => h)
  | _ :: _, [] => .isFalse (fun h => h)
  | _ :: as, _ :: bs =>
      @instDecidableAnd _ _ (inferInstance) (stepsEqExceptTime.dec as bs)

/-- C6's claimed relation lifted to trace results. -/
def resultsEqExceptTime :
    Except Fault (List ExecutionStep) → Except Fault (List ExecutionStep) → Prop
  | .ok s1, .ok s2 => stepsEqExceptTime s1 s2
  | .error f1, .error f2 => f1 = f2
  | _, _ => False

instance : ∀ r1 r2, Decidable (resultsEqExceptTime r1 r2)
  | .ok s1, .ok s2 => stepsEqExceptTime.dec s1 s2
  | .error _, .error _ => by unfold resultsEqExceptTime; infer_instance
  | .ok _, .error _ => .isFalse (fun h => h)
  | .error _, .ok _ => .isFalse (fun h => h)

/-- A step with every run-dependent observation erased: timestamps and CPU
times dropped, heap entries reduced to their identity-free content
(type name, tracked deep copy, size), in insertion order. -/
structure ErasedStep where
  step_number : Nat
  line_number : Nat
  column_number : Nat
  step_type : StepType
  source_code : String
  variables_state : List (String × SnapVal)
  stdout_snapshot : String
  stderr_snapshot : String
  heap_shapes : List (String × SnapVal × Nat)
  expression_value : Option RVal
  condition_result : Option Bool
  memory_usage : Nat
deriving DecidableEq, Repr

def eraseStep (s : ExecutionStep) : ErasedStep :=
  { step_number := s.step_number
    line_number := s.line_number
    column_number := s.column_number
    step_type := s.step_type
    source_code := s.source_code
    variables_state := s.variables_state
    stdout_snapshot := s.stdout_snapshot
    stderr_snapshot := s.stderr_snapshot
    heap_shapes := s.heap_state.map (fun p => (p.2.type_name, p.2.value, p.2.size))
    expression_value := s.expression_value
    condition_result := s.condition_result
    memory_usage := s.memory_usage }

/-- The same erasure computed straight from the core step (no environment
involved). -/
def eraseCore (s : StepCore) : ErasedStep :=
  { step_number := s.step_number
    line_number := s.line_number
    column_number := s.column_number
    step_type := s.step_type
    source_code := s.source_code
    variables_state := s.variables_state
    stdout_snapshot := s.stdout_snapshot
    stderr_snapshot := s.stderr_snapshot
    heap_shapes := s.heap_state.map (fun p => (p.2.type_name, p.2.value, p.2.size))
    expression_value := s.expression_value
    condition_result := s.condition_result
    memory_usage := s.memory_usage }

def eraseResult (r : Except Fault (List ExecutionStep)) : Except Fault (List ErasedStep) :=
  Except.map (List.map eraseStep) r

/-- Tracker extension: every existing binding survives (the tracker only
ever appends entries for unseen identities). -/
def TrackerLE (t₁ t₂ : List (Nat × HeapObjectC)) : Prop :=
  ∀ k v, lookupA t₁ k = some v → lookupA t₂ k = some v

/-- Every heap entry recorded in any emitted step agrees with the current
tracker — the formal core of the write-once heap-snapshot behaviour. -/
def HeapConsistent (st : TState) : Prop :=
  ∀ s ∈ st.steps, ∀ p ∈ s.heap_state, lookupA st.ctx.heap_tracker p.1 = some p.2

/-- The master execution invariant for a step budget `N`: the recorded step
list never outruns the step counter, the counter respects the budget, the
budget is the configured one, and steps agree with the tracker. -/
def MInv (N : Nat) (st : TState) : Prop :=
  st.steps.length ≤ st.ctx.step_count ∧ st.ctx.step_count ≤ N ∧
    st.ctx.max_steps = N ∧ HeapConsistent st

/-- `m` preserves `P` across every successful run. -/
def Pres {α : Type} (P : TState → Prop) (m : M α) : Prop :=
  ∀ st a st', P st → m st = (Except.ok a, st') → P st'

/-- Every run of `m` (success or fault) relates initial and final state
by `R`. -/
def Trans2 {α : Type} (R : TState → TState → Prop) (m : M α) : Prop :=
  ∀ st r st', m st = (r, st') → R st st'

/-- State components untouched by expression evaluation: the step list, the
step counter, the heap tracker and the budget. -/
def SilentTo (st st' : TState) : Prop :=
  st'.steps = st.steps ∧ st'.ctx.step_count = st.ctx.step_count ∧
    st'.ctx.heap_tracker = st.ctx.heap_tracker ∧ st'.ctx.max_steps = st.ctx.max_steps

/-- State components controlled by assignment: steps, counter and budget
untouched, tracker possibly extended. -/
def AssignTo (st st' : TState) : Prop :=
  st'.steps = st.steps ∧ st'.ctx.step_count = st.ctx.step_count ∧
    st'.ctx.max_steps = st.ctx.max_steps ∧
    TrackerLE st.ctx.heap_tracker st'.ctx.heap_tracker

/-- The steps recorded by tracing the swap round-trip program. -/
def c4Steps : List ExecutionStep :=
  (trace {} env0 swapProg 50).toOption.getD []

def dummyES : ExecutionStep := mkStep 0 []

def dummyHeapObject : HeapObject :=
  { object_id := 0, type_name := "", value := .vnone, size := 0, references := [] }

/-- The tracked heap object recorded in the n-th step of the swap trace. -/
def c4HeapObjAt (n : Nat) : HeapObject :=
  ((c4Steps.getD n dummyES).heap_state.getD 0 (0, dummyHeapObject)).2

instance {ε α : Type} [DecidableEq ε] [DecidableEq α] : DecidableEq (Except ε α) :=
  fun x y =>
    match x, y with
    | .ok a, .ok b =>
        if h : a = b then isTrue (by rw [h]) else
          isFalse (by intro he; cases he; exact h rfl)
    | .error a, .error b =>
        if h : a = b then isTrue (by rw [h]) else
          isFalse (by intro he; cases he; exact h rfl)
    | .ok _, .error _ => isFalse (by intro he; cases he)
    | .error _, .ok _ => isFalse (by intro he; cases he)

def c1OkSteps : List ExecutionStep := (trace {} env0 twoAssignProg 100).toOption.getD []

theorem run_bind {α β : Type} (m : M α) (f : α → M β) (st : TState) :
    (m >>= f) st =
      (match m st with
       | (Except.ok a, st') => f a st'
       | (Except.error e, st') => (Except.error e, st')) := rfl

theorem run_bind_cases {α β : Type} {m : M α} {f : α → M β} {st : TState}
    {r : Except Fault β} {st' : TState} (h : (m >>= f) st = (r, st')) :
    (∃ a st₁, m st = (Except.ok a, st₁) ∧ f a st₁ = (r, st')) ∨
    (∃ e, m st = (Except.error e, st') ∧ r = Except.error e) := by
  rw [run_bind] at h
  rcases hm : m st with ⟨res, st₁⟩
  rw [hm] at h
  cases res with
  | ok a => exact Or.inl ⟨a, st₁, rfl, h⟩
  | error e =>
      have h' : (Except.error e, st₁) = ((r, st') : Except Fault β × TState) := h
      obtain ⟨h1, h2⟩ := (Prod.mk.injEq _ _ _ _).mp h'
      subst h2
      exact Or.inr ⟨e, rfl, h1.symm⟩

theorem silentTo_refl (st : TState) : SilentTo st st := ⟨rfl, rfl, rfl, rfl⟩

theorem silentTo_trans {s t u : TState} (h₁ : SilentTo s t) (h₂ : SilentTo t u) :
    SilentTo s u := by
  obtain ⟨a1, a2, a3, a4⟩ := h₁
  obtain ⟨b1, b2, b3, b4⟩ := h₂
  exact ⟨b1.trans a1, b2.trans a2, b3.trans a3, b4.trans a4⟩

theorem trackerLE_refl (t : List (Nat × HeapObjectC)) : TrackerLE t t := fun _ _ h => h

theorem trackerLE_trans {t₁ t₂ t₃ : List (Nat × HeapObjectC)}
    (h₁ : TrackerLE t₁ t₂) (h₂ : TrackerLE t₂ t₃) : TrackerLE t₁ t₃ :=
  fun k v h => h₂ k v (h₁ k v h)

theorem assignTo_refl (st : TState) : AssignTo st st :=
  ⟨rfl, rfl, rfl, trackerLE_refl _⟩

theorem assignTo_trans {s t u : TState} (h₁ : AssignTo s t) (h₂ : AssignTo t u) :
    AssignTo s u := by
  obtain ⟨a1, a2, a3, a4⟩ := h₁
  obtain ⟨b1, b2, b3, b4⟩ := h₂
  exact ⟨b1.trans a1, b2.trans a2, b3.trans a3, trackerLE_trans a4 b4⟩

theorem silentTo_assignTo {s t : TState} (h : SilentTo s t) : AssignTo s t := by
  obtain ⟨a1, a2, a3, a4⟩ := h
  exact ⟨a1, a2, a4, by rw [a3]; exact trackerLE_refl _⟩

theorem trans2_bind {α β : Type} {R : TState → TState → Prop} {m : M α} {f : α → M β}
    (hRt : ∀ {s t u : TState}, R s t → R t u → R s u)
    (hm : Trans2 R m) (hf : ∀ a, Trans2 R (f a)) : Trans2 R (m >>= f) := by
  intro st r st' h
  rcases run_bind_cases h with ⟨a, st₁, h₁, h₂⟩ | ⟨e, h₁, _⟩
  · exact hRt (hm _ _ _ h₁) (hf a _ _ _ h₂)
  · exact hm _ _ _ h₁

theorem trans2_pure {α : Type} {R : TState → TState → Prop}
    (hR : ∀ st, R st st) (a : α) : Trans2 R (pure a : M α) := by
  intro st r st' h
  cases h
  exact hR st

theorem trans2_mThrow {α : Type} {R : TState → TState → Prop}
    (hR : ∀ st, R st st) (f : Fault) : Trans2 R (mThrow f : M α) := by
  intro st r st' h
  cases h
  exact hR st

theorem trans2_mGet {R : TState → TState → Prop} (hR : ∀ st, R st st) :
    Trans2 R mGet := by
  intro st r st' h
  cases h
  exact hR st

theorem trans2_ite {α : Type} {R : TState → TState → Prop} {c : Prop} [Decidable c]
    {t e : M α} (ht : Trans2 R t) (he : Trans2 R e) : Trans2 R (if c then t else e) := by
  by_cases hc : c
  · simpa [hc] using ht
  · simpa [hc] using he

theorem allocList_silent (xs : List RVal) : Trans2 SilentTo (allocList xs) := by
  intro st r st' h
  cases h
  exact ⟨rfl, rfl, rfl, rfl⟩

theorem setPos_silent (line col : Nat) : Trans2 SilentTo (setPos line col) := by
  intro st r st' h
  cases h
  exact ⟨rfl, rfl, rfl, rfl⟩

theorem applyOperator_silent (op : BinOp) (l r : RVal) :
    Trans2 SilentTo (applyOperator op l r) := by
  unfold applyOperator
  refine trans2_bind silentTo_trans (trans2_mGet silentTo_refl) (fun st => ?_)
  rcases applyOperatorCore st.ctx.heap op l r with v | xs
  · exact trans2_pure silentTo_refl v
  · exact allocList_silent xs

/-- Expression evaluation touches neither the step list, the step counter,
the tracker nor the budget. -/
theorem eval_silent : ∀ fuel : Nat,
    (∀ e, Trans2 SilentTo (evalExpr fuel e)) ∧
    (∀ es, Trans2 SilentTo (evalList fuel es)) ∧
    (∀ lv rest, Trans2 SilentTo (evalCmpRest fuel lv rest)) := by
  intro fuel
  induction fuel with
  | zero =>
      refine ⟨fun e => ?_, fun es => ?_, fun lv rest => ?_⟩ <;>
        exact trans2_mThrow silentTo_refl .fuel
  | succ n ih =>
      obtain ⟨ihE, ihL, ihC⟩ := ih
      refine ⟨fun e => ?_, fun es => ?_, fun lv rest => ?_⟩
      · cases e with
        | const v => exact trans2_pure silentTo_refl v
        | name id =>
            exact trans2_bind silentTo_trans (trans2_mGet silentTo_refl)
              (fun st => trans2_pure silentTo_refl _)
        | listLit elts =>
            exact trans2_bind silentTo_trans (ihL elts) (fun vs => allocList_silent vs)
        | tupleLit elts =>
            exact trans2_bind silentTo_trans (ihL elts) (fun vs => trans2_pure silentTo_refl _)
        | binOp op l r =>
            exact trans2_bind silentTo_trans (ihE l) (fun lv =>
              trans2_bind silentTo_trans (ihE r) (fun rv => applyOperator_silent op lv rv))
        | unaryOp op e₁ =>
            exact trans2_bind silentTo_trans (ihE e₁) (fun v =>
              trans2_bind silentTo_trans (trans2_mGet silentTo_refl)
                (fun st => trans2_pure silentTo_refl _))
        | compare l rest =>
            exact trans2_bind silentTo_trans (ihE l) (fun lv =>
              trans2_bind silentTo_trans (ihC lv rest) (fun b => trans2_pure silentTo_refl _))
        | subscript v s =>
            exact trans2_bind silentTo_trans (ihE v) (fun obj =>
              trans2_bind silentTo_trans (ihE s) (fun idx =>
                trans2_bind silentTo_trans (trans2_mGet silentTo_refl)
                  (fun st => trans2_pure silentTo_refl _)))
      · cases es with
        | nil => exact trans2_pure silentTo_refl []
        | cons e rest =>
            exact trans2_bind silentTo_trans (ihE e) (fun v =>
              trans2_bind silentTo_trans (ihL rest) (fun vs => trans2_pure silentTo_refl _))
      · cases rest with
        | nil => exact trans2_pure silentTo_refl true
        | cons p restTail =>
            exact trans2_bind silentTo_trans (ihE p.2) (fun rv =>
              trans2_bind silentTo_trans (trans2_mGet silentTo_refl) (fun st =>
                trans2_ite (ihC rv restTail) (trans2_pure silentTo_refl false)))

theorem lookupA_append_left {α β : Type} [DecidableEq α] {t : List (α × β)} {k : α} {v : β}
    (x : α × β) (h : lookupA t k = some v) : lookupA (t ++ [x]) k = some v := by
  induction t with
  | nil => simp [lookupA] at h
  | cons p rest ih =>
      by_cases hk : k = p.1
      · simpa [lookupA, hk] using h
      · simp [lookupA, hk] at h ⊢
        exact ih h

theorem lookupA_append_new {α β : Type} [DecidableEq α] {t : List (α × β)} {a : α} {v : β}
    (hnone : lookupA t a = none) : lookupA (t ++ [(a, v)]) a = some v := by
  induction t with
  | nil => simp [lookupA]
  | cons p rest ih =>
      by_cases hk : a = p.1
      · simp [lookupA, hk] at hnone
      · simp [lookupA, hk] at hnone ⊢
        exact ih hnone

theorem trackHeapObject_ok {a : Nat} {st : TState} {h : HeapObjectC} {st' : TState}
    (hrun : trackHeapObject a st = (Except.ok h, st')) :
    AssignTo st st' ∧ lookupA st'.ctx.heap_tracker a = some h := by
  unfold trackHeapObject at hrun
  rw [run_bind] at hrun
  simp only [mGet] at hrun
  rcases hl : lookupA st.ctx.heap_tracker a with _ | hh
  · rw [hl] at hrun
    dsimp only at hrun
    rw [run_bind] at hrun
    dsimp only [mModifyCtx] at hrun
    cases hrun
    refine ⟨⟨rfl, rfl, rfl, ?_⟩, ?_⟩
    · intro k v hkv
      exact lookupA_append_left _ hkv
    · exact lookupA_append_new hl
  · rw [hl] at hrun
    dsimp only at hrun
    cases hrun
    exact ⟨assignTo_refl st, hl⟩

theorem trackHeapObject_assignTo (a : Nat) : Trans2 AssignTo (trackHeapObject a) := by
  intro st r st' hrun
  unfold trackHeapObject at hrun
  rw [run_bind] at hrun
  simp only [mGet] at hrun
  rcases hl : lookupA st.ctx.heap_tracker a with _ | hh
  · rw [hl] at hrun
    dsimp only at hrun
    rw [run_bind] at hrun
    dsimp only [mModifyCtx] at hrun
    cases hrun
    exact ⟨rfl, rfl, rfl, fun k v hkv => lookupA_append_left _ hkv⟩
  · rw [hl] at hrun
    dsimp only at hrun
    cases hrun
    exact assignTo_refl st

theorem trans2_silent_assign {α : Type} {m : M α} (hm : Trans2 SilentTo m) :
    Trans2 AssignTo m :=
  fun st r st' h => silentTo_assignTo (hm st r st' h)

theorem assign_assignTo : ∀ fuel : Nat,
    (∀ t v, Trans2 AssignTo (assignValue fuel t v)) ∧
    (∀ ts v i, Trans2 AssignTo (assignTupleElems fuel ts v i)) := by
  intro fuel
  induction fuel with
  | zero =>
      exact ⟨fun t v => trans2_mThrow assignTo_refl .fuel,
             fun ts v i => trans2_mThrow assignTo_refl .fuel⟩
  | succ n ih =>
      obtain ⟨ihV, ihT⟩ := ih
      constructor
      · intro t v
        cases t with
        | tname id =>
            refine trans2_bind assignTo_trans ?_ (fun _ => ?_)
            · intro st r st' hrun
              cases hrun
              exact ⟨rfl, rfl, rfl, trackerLE_refl _⟩
            · cases v with
              | rref a =>
                  exact trans2_bind assignTo_trans (trackHeapObject_assignTo a)
                    (fun _ => trans2_pure assignTo_refl _)
              | rnone => exact trans2_pure assignTo_refl _
              | rint i => exact trans2_pure assignTo_refl _
              | rfloat q => exact trans2_pure assignTo_refl _
              | rbool b => exact trans2_pure assignTo_refl _
              | rstr s => exact trans2_pure assignTo_refl _
              | rtuple es => exact trans2_pure assignTo_refl _
        | tsubscript ve se =>
            refine trans2_bind assignTo_trans
              (trans2_silent_assign ((eval_silent n).1 ve)) (fun obj => ?_)
            refine trans2_bind assignTo_trans
              (trans2_silent_assign ((eval_silent n).1 se)) (fun idx => ?_)
            refine trans2_ite ?_ (trans2_pure assignTo_refl _)
            rcases hI : intLike idx with _ | i
            all_goals cases obj
            all_goals first
              | exact trans2_pure assignTo_refl _
              | (intro st r st' hrun; cases hrun; exact ⟨rfl, rfl, rfl, trackerLE_refl _⟩)
        | ttuple elts => exact ihT elts v 0
      · intro ts v i
        cases ts with
        | nil => exact trans2_pure assignTo_refl _
        | cons t rest =>
            cases v with
            | rnone => exact ihT rest .rnone (i + 1)
            | rint k =>
                refine trans2_bind assignTo_trans (trans2_mGet assignTo_refl) (fun st => ?_)
                exact trans2_mThrow assignTo_refl _
            | rfloat q =>
                refine trans2_bind assignTo_trans (trans2_mGet assignTo_refl) (fun st => ?_)
                exact trans2_mThrow assignTo_refl _
            | rbool b =>
                refine trans2_bind assignTo_trans (trans2_mGet assignTo_refl) (fun st => ?_)
                exact trans2_mThrow assignTo_refl _
            | rstr s =>
                refine trans2_bind assignTo_trans (trans2_mGet assignTo_refl) (fun st => ?_)
                exact trans2_ite
                  (trans2_bind assignTo_trans (ihV t _) (fun _ => ihT rest _ (i + 1)))
                  (ihT rest _ (i + 1))
            | rref a =>
                refine trans2_bind assignTo_trans (trans2_mGet assignTo_refl) (fun st => ?_)
                exact trans2_ite
                  (trans2_bind assignTo_trans (ihV t _) (fun _ => ihT rest _ (i + 1)))
                  (ihT rest _ (i + 1))
            | rtuple es =>
                refine trans2_bind assignTo_trans (trans2_mGet assignTo_refl) (fun st => ?_)
                exact trans2_ite
                  (trans2_bind assignTo_trans (ihV t _) (fun _ => ihT rest _ (i + 1)))
                  (ihT rest _ (i + 1))

theorem assignTargets_assignTo : ∀ fuel : Nat, ∀ ts v,
    Trans2 AssignTo (assignTargets fuel ts v) := by
  intro fuel
  induction fuel with
  | zero => exact fun ts v => trans2_mThrow assignTo_refl .fuel
  | succ n ih =>
      intro ts v
      cases ts with
      | nil => exact trans2_pure assignTo_refl _
      | cons t rest =>
          exact trans2_bind assignTo_trans ((assign_assignTo n).1 t v) (fun _ => ih rest v)

theorem snapshotVars_spec : ∀ (names : List (String × RVal)) (st : TState)
    (r : List (String × SnapVal) × List (Nat × HeapObjectC)) (st' : TState),
    snapshotVars names st = (Except.ok r, st') →
    AssignTo st st' ∧ ∀ p ∈ r.2, lookupA st'.ctx.heap_tracker p.1 = some p.2 := by
  intro names
  induction names with
  | nil =>
      intro st r st' h
      cases h
      exact ⟨assignTo_refl st, by simp⟩
  | cons nv rest ih =>
      intro st r st' h
      obtain ⟨name, v⟩ := nv
      by_cases hs : strStartsWith name "__"
      · simp only [snapshotVars, hs, if_true] at h
        exact ih st r st' h
      · simp only [snapshotVars, hs, if_false, Bool.false_eq_true] at h
        rw [run_bind] at h
        simp only [mGet] at h
        cases v with
        | rref a =>
            dsimp only at h
            rcases run_bind_cases h with ⟨h0, st₁, hTrack, h₂⟩ | ⟨e, _, hcontra⟩
            · obtain ⟨hA1, hL1⟩ := trackHeapObject_ok hTrack
              rcases run_bind_cases h₂ with ⟨x, st₂, hSnap, h₃⟩ | ⟨e, _, hcontra⟩
              · obtain ⟨hA2, hCons⟩ := ih st₁ x st₂ hSnap
                obtain ⟨vars, hp⟩ := x
                cases h₃
                refine ⟨assignTo_trans hA1 hA2, ?_⟩
                intro p hp₂
                rcases List.mem_cons.mp hp₂ with rfl | hmem
                · exact hA2.2.2.2 a h0 hL1
                · exact hCons p (List.mem_filter.mp hmem).1
              · simp at hcontra
            · simp at hcontra
        | rnone =>
            dsimp only at h
            rcases run_bind_cases h with ⟨x, st₂, hSnap, h₃⟩ | ⟨e, _, hcontra⟩
            · obtain ⟨hA2, hCons⟩ := ih st x st₂ hSnap
              obtain ⟨vars, hp⟩ := x
              cases h₃
              exact ⟨hA2, hCons⟩
            · simp at hcontra
        | rint i =>
            dsimp only at h
            rcases run_bind_cases h with ⟨x, st₂, hSnap, h₃⟩ | ⟨e, _, hcontra⟩
            · obtain ⟨hA2, hCons⟩ := ih st x st₂ hSnap
              obtain ⟨vars, hp⟩ := x
              cases h₃
              exact ⟨hA2, hCons⟩
            · simp at hcontra
        | rfloat q =>
            dsimp only at h
            rcases run_bind_cases h with ⟨x, st₂, hSnap, h₃⟩ | ⟨e, _, hcontra⟩
            · obtain ⟨hA2, hCons⟩ := ih st x st₂ hSnap
              obtain ⟨vars, hp⟩ := x
              cases h₃
              exact ⟨hA2, hCons⟩
            · simp at hcontra
        | rbool b =>
            dsimp only at h
            rcases run_bind_cases h with ⟨x, st₂, hSnap, h₃⟩ | ⟨e, _, hcontra⟩
            · obtain ⟨hA2, hCons⟩ := ih st x st₂ hSnap
              obtain ⟨vars, hp⟩ := x
              cases h₃
              exact ⟨hA2, hCons⟩
            · simp at hcontra
        | rstr s =>
            dsimp only at h
            rcases run_bind_cases h with ⟨x, st₂, hSnap, h₃⟩ | ⟨e, _, hcontra⟩
            · obtain ⟨hA2, hCons⟩ := ih st x st₂ hSnap
              obtain ⟨vars, hp⟩ := x
              cases h₃
              exact ⟨hA2, hCons⟩
            · simp at hcontra
        | rtuple es =>
            dsimp only at h
            rcases run_bind_cases h with ⟨x, st₂, hSnap, h₃⟩ | ⟨e, _, hcontra⟩
            · obtain ⟨hA2, hCons⟩ := ih st x st₂ hSnap
              obtain ⟨vars, hp⟩ := x
              cases h₃
              exact ⟨hA2, hCons⟩
            · simp at hcontra

theorem createStep_ok {ty : StepType} {src : String} {ev : Option RVal} {cr : Option Bool}
    {st : TState} {step : StepCore} {st' : TState}
    (h : createStep ty src ev cr st = (Except.ok step, st')) :
    st'.steps = st.steps ∧ st'.ctx.step_count = st.ctx.step_count + 1 ∧
    st'.ctx.max_steps = st.ctx.max_steps ∧ st'.ctx.step_count ≤ st'.ctx.max_steps ∧
    TrackerLE st.ctx.heap_tracker st'.ctx.heap_tracker ∧
    (∀ p ∈ step.heap_state, lookupA st'.ctx.heap_tracker p.1 = some p.2) := by
  unfold createStep at h
  rw [run_bind] at h
  dsimp only [mModifyCtx] at h
  rw [run_bind] at h
  simp only [mGet] at h
  by_cases hgt : st.ctx.step_count + 1 > st.ctx.max_steps
  · simp [hgt, mThrow] at h
  · simp only [hgt, if_false] at h
    rcases run_bind_cases h with ⟨x, st₂, hSnap, h₂⟩ | ⟨e, _, hcontra⟩
    · obtain ⟨hA, hCons⟩ := snapshotVars_spec _ _ _ _ hSnap
      obtain ⟨vars, hp⟩ := x
      rw [run_bind] at h₂
      simp only [mGet] at h₂
      cases h₂
      obtain ⟨hSteps, hCount, hMax, hLE⟩ := hA
      dsimp only at hSteps hCount hMax hLE
      refine ⟨hSteps, hCount, hMax, ?_, hLE, ?_⟩
      · rw [hCount, hMax]
        omega
      · intro p hmem
        exact hCons p hmem
    · simp at hcontra

theorem minv_assignTo {N : Nat} {st st' : TState} (hP : MInv N st) (hA : AssignTo st st') :
    MInv N st' := by
  obtain ⟨h1, h2, h3, h4⟩ := hP
  obtain ⟨a1, a2, a3, a4⟩ := hA
  refine ⟨by rw [a1, a2]; exact h1, by rw [a2]; exact h2, by rw [a3]; exact h3, ?_⟩
  intro s hs p hmem
  rw [a1] at hs
  exact a4 p.1 p.2 (h4 s hs p hmem)

theorem pres_bind {α β : Type} {P : TState → Prop} {m : M α} {f : α → M β}
    (hm : Pres P m) (hf : ∀ a, Pres P (f a)) : Pres P (m >>= f) := by
  intro st b st' hP h
  rcases run_bind_cases h with ⟨a, st₁, h₁, h₂⟩ | ⟨e, _, hcontra⟩
  · exact hf a _ _ _ (hm _ _ _ hP h₁) h₂
  · simp at hcontra

theorem pres_of_trans2 {α : Type} {P : TState → Prop} {R : TState → TState → Prop} {m : M α}
    (hPR : ∀ {st st'}, P st → R st st' → P st') (hm : Trans2 R m) : Pres P m :=
  fun st _ st' hP h => hPR hP (hm st _ st' h)

theorem pres_assign {α : Type} {N : Nat} {m : M α} (hm : Trans2 AssignTo m) :
    Pres (MInv N) m :=
  pres_of_trans2 (fun hP hA => minv_assignTo hP hA) hm

theorem pres_silent {α : Type} {N : Nat} {m : M α} (hm : Trans2 SilentTo m) :
    Pres (MInv N) m :=
  pres_assign (trans2_silent_assign hm)

theorem pres_throw {α : Type} {P : TState → Prop} (f : Fault) : Pres P (mThrow f : M α) := by
  intro st a st' _ h
  simp [mThrow] at h

theorem pres_pure {α : Type} {P : TState → Prop} (a : α) : Pres P (pure a : M α) := by
  intro st b st' hP h
  cases h
  exact hP

theorem pres_mGet {P : TState → Prop} : Pres P mGet := by
  intro st b st' hP h
  cases h
  exact hP

theorem pres_ite {α : Type} {P : TState → Prop} {c : Prop} [Decidable c] {t e : M α}
    (ht : Pres P t) (he : Pres P e) : Pres P (if c then t else e) := by
  by_cases hc : c
  · simpa [hc] using ht
  · simpa [hc] using he

theorem emitStep_pres {N : Nat} (ty : StepType) (src : String) (ev : Option RVal)
    (cr : Option Bool) : Pres (MInv N) (emitStep ty src ev cr) := by
  intro st a st' hP hrun
  unfold emitStep at hrun
  rcases run_bind_cases hrun with ⟨step, st₁, hC, hPush⟩ | ⟨e, _, hcontra⟩
  · obtain ⟨hSteps, hCount, hMax, hBound, hLE, hCons⟩ := createStep_ok hC
    dsimp only [mPushStep] at hPush
    cases hPush
    obtain ⟨p1, p2, p3, p4⟩ := hP
    refine ⟨?_, ?_, ?_, ?_⟩
    · simp only [List.length_append, List.length_cons, List.length_nil]
      rw [hSteps, hCount]
      omega
    · rw [hCount] at hBound ⊢
      rw [hMax, p3] at hBound
      exact hBound
    · rw [hMax]
      exact p3
    · intro s hs p hmem
      rcases List.mem_append.mp hs with hOld | hNew
      · rw [hSteps] at hOld
        exact hLE p.1 p.2 (p4 s hOld p hmem)
      · rcases List.mem_singleton.mp hNew with rfl
        exact hCons p hmem
  · simp at hcontra

theorem exec_pres (maxSteps : Nat) (captureExpr : Bool) (N : Nat) : ∀ fuel : Nat,
    (∀ s, Pres (MInv N) (execStmt maxSteps captureExpr fuel s)) ∧
    (∀ ss, Pres (MInv N) (execStmts maxSteps captureExpr fuel ss)) ∧
    (∀ test body, Pres (MInv N) (whileLoop maxSteps captureExpr fuel test body)) ∧
    (∀ t items body, Pres (MInv N) (forIter maxSteps captureExpr fuel t items body)) := by
  intro fuel
  induction fuel with
  | zero =>
      exact ⟨fun s => pres_throw .fuel, fun ss => pres_throw .fuel,
             fun test body => pres_throw .fuel, fun t items body => pres_throw .fuel⟩
  | succ n ih =>
      obtain ⟨ihS, ihSS, ihW, ihF⟩ := ih
      refine ⟨fun s => ?_, fun ss => ?_, fun test body => ?_, fun t items body => ?_⟩
      · refine pres_bind pres_mGet (fun st0 => pres_ite (pres_throw _) ?_)
        cases s with
        | assign targets value line col src =>
            exact pres_bind (pres_silent (setPos_silent line col)) (fun _ =>
              pres_bind (pres_silent ((eval_silent n).1 value)) (fun v =>
                pres_bind (pres_assign (assignTargets_assignTo n targets v)) (fun _ =>
                  emitStep_pres _ _ _ _)))
        | augAssign t₁ op value line col src =>
            exact pres_bind (pres_silent (setPos_silent line col)) (fun _ =>
              pres_bind (pres_silent ((eval_silent n).1 (targetToExpr t₁))) (fun tv =>
                pres_bind (pres_silent ((eval_silent n).1 value)) (fun ov =>
                  pres_bind (pres_silent (applyOperator_silent op tv ov)) (fun res =>
                    pres_bind (pres_assign ((assign_assignTo n).1 t₁ res)) (fun _ =>
                      emitStep_pres _ _ _ _)))))
        | ifStmt test body orelse line col srcTest =>
            exact pres_bind (pres_silent (setPos_silent line col)) (fun _ =>
              pres_bind (pres_silent ((eval_silent n).1 test)) (fun c =>
                pres_bind pres_mGet (fun st1 =>
                  pres_bind (emitStep_pres _ _ _ _) (fun _ =>
                    pres_ite (ihSS body) (ihSS orelse)))))
        | whileStmt test body line col srcTest =>
            exact pres_bind (pres_silent (setPos_silent line col)) (fun _ =>
              pres_bind (emitStep_pres _ _ _ _) (fun _ => ihW test body))
        | forStmt target iter body line col src =>
            refine pres_bind (pres_silent (setPos_silent line col)) (fun _ =>
              pres_bind (pres_silent ((eval_silent n).1 iter)) (fun it => ?_))
            cases it with
            | rnone => exact pres_pure _
            | rint i =>
                refine pres_bind (emitStep_pres _ _ _ _) (fun _ =>
                  pres_bind pres_mGet (fun st1 => ?_))
                rcases pyIterate st1.ctx.heap (.rint i) with _ | items
                · exact pres_throw _
                · exact ihF target items body
            | rfloat q =>
                refine pres_bind (emitStep_pres _ _ _ _) (fun _ =>
                  pres_bind pres_mGet (fun st1 => ?_))
                rcases pyIterate st1.ctx.heap (.rfloat q) with _ | items
                · exact pres_throw _
                · exact ihF target items body
            | rbool b =>
                refine pres_bind (emitStep_pres _ _ _ _) (fun _ =>
                  pres_bind pres_mGet (fun st1 => ?_))
                rcases pyIterate st1.ctx.heap (.rbool b) with _ | items
                · exact pres_throw _
                · exact ihF target items body
            | rstr s =>
                refine pres_bind (emitStep_pres _ _ _ _) (fun _ =>
                  pres_bind pres_mGet (fun st1 => ?_))
                rcases pyIterate st1.ctx.heap (.rstr s) with _ | items
                · exact pres_throw _
                · exact ihF target items body
            | rref a =>
                refine pres_bind (emitStep_pres _ _ _ _) (fun _ =>
                  pres_bind pres_mGet (fun st1 => ?_))
                rcases pyIterate st1.ctx.heap (.rref a) with _ | items
                · exact pres_throw _
                · exact ihF target items body
            | rtuple es =>
                refine pres_bind (emitStep_pres _ _ _ _) (fun _ =>
                  pres_bind pres_mGet (fun st1 => ?_))
                rcases pyIterate st1.ctx.heap (.rtuple es) with _ | items
                · exact pres_throw _
                · exact ihF target items body
        | exprStmt e line col =>
            exact pres_bind (pres_silent ((eval_silent n).1 e)) (fun v =>
              pres_ite (emitStep_pres _ _ _ _) (pres_pure _))
      · cases ss with
        | nil => exact pres_pure _
        | cons s rest =>
            exact pres_bind (ihS s) (fun _ => ihSS rest)
      · exact pres_bind (pres_silent ((eval_silent n).1 test)) (fun c =>
          pres_bind pres_mGet (fun st0 =>
            pres_ite
              (pres_bind (ihSS body) (fun _ =>
                pres_bind (emitStep_pres _ _ _ _) (fun _ => ihW test body)))
              (emitStep_pres _ _ _ _)))
      · cases items with
        | nil => exact emitStep_pres _ _ _ _
        | cons item rest =>
            exact pres_bind (pres_assign ((assign_assignTo n).1 t item)) (fun _ =>
              pres_bind (ihSS body) (fun _ =>
                pres_bind (emitStep_pres _ _ _ _) (fun _ => ihF t rest body)))

theorem execModule_pres (maxSteps : Nat) (captureExpr : Bool) (N : Nat) (fuel : Nat)
    (prog : List Stmt) : Pres (MInv N) (execModule maxSteps captureExpr fuel prog) :=
  pres_bind pres_mGet (fun _ =>
    pres_ite (pres_throw _) ((exec_pres maxSteps captureExpr N fuel).2.1 prog))

theorem initState_minv (cfg : TracerConfig) : MInv cfg.max_steps (initState cfg) := by
  refine ⟨by simp [initState], by simp [initState], rfl, ?_⟩
  intro s hs
  simp [initState] at hs

/-- Unpacking a successful `trace`: the final tracer state satisfies the
master invariant and the returned steps are its stamped recordings. -/
theorem trace_ok_inv {cfg : TracerConfig} {env : Env} {prog : List Stmt} {fuel : Nat}
    {steps : List ExecutionStep} (h : trace cfg env prog fuel = Except.ok steps) :
    ∃ stf : TState, MInv cfg.max_steps stf ∧ steps = stf.steps.map (stampStep env) := by
  unfold trace at h
  rcases hrun : execModule cfg.max_steps cfg.capture_expressions fuel prog (initState cfg) with ⟨res, stf⟩
  rw [hrun] at h
  cases res with
  | ok u =>
      refine ⟨stf, ?_, ?_⟩
      · exact execModule_pres cfg.max_steps cfg.capture_expressions cfg.max_steps fuel prog _ _ _ (initState_minv cfg) hrun
      · cases h
        rfl
  | error f =>
      cases f <;> simp at h

theorem mergeableCmd_congr {a b c : AnimationCommand}
    (ht : a.command_type = b.command_type) (hi : a.target_indices = b.target_indices) :
    mergeableCmd a c = mergeableCmd b c := by
  simp [mergeableCmd, ht, hi]

theorem optimizeAux_head : ∀ (l : List AnimationCommand) (prev : AnimationCommand),
    ∃ c cs, optimizeAux prev l = c :: cs ∧ c.command_type = prev.command_type ∧
      c.target_indices = prev.target_indices := by
  intro l
  induction l with
  | nil => exact fun prev => ⟨prev, [], rfl, rfl, rfl⟩
  | cons c rest ih =>
      intro prev
      by_cases hm : mergeableCmd c prev
      · obtain ⟨c', cs', heq, h1, h2⟩ := ih { prev with duration_ms := prev.duration_ms + c.duration_ms }
        exact ⟨c', cs', by simp [optimizeAux, hm, heq], h1, h2⟩
      · exact ⟨prev, optimizeAux c rest, by simp [optimizeAux, hm], rfl, rfl⟩

theorem optimizeAux_chain : ∀ (l : List AnimationCommand) (prev : AnimationCommand),
    List.Chain' (fun a b => mergeableCmd b a = false) (optimizeAux prev l) := by
  intro l
  induction l with
  | nil => intro prev; simp [optimizeAux]
  | cons c rest ih =>
      intro prev
      by_cases hm : mergeableCmd c prev
      · simpa [optimizeAux, hm] using ih { prev with duration_ms := prev.duration_ms + c.duration_ms }
      · simp only [optimizeAux, hm, if_false, Bool.false_eq_true]
        rw [List.chain'_cons']
        refine ⟨?_, ih c⟩
        intro b hb
        obtain ⟨c', cs', heq, h1, h2⟩ := optimizeAux_head rest c
        rw [heq] at hb
        simp at hb
        subst hb
        rw [mergeableCmd_congr h1 h2]
        simpa using hm

theorem optimizeAux_fixed : ∀ (l : List AnimationCommand) (prev : AnimationCommand),
    List.Chain' (fun a b => mergeableCmd b a = false) (prev :: l) →
    optimizeAux prev l = prev :: l := by
  intro l
  induction l with
  | nil => intro prev _; rfl
  | cons c rest ih =>
      intro prev hchain
      rw [List.chain'_cons] at hchain
      obtain ⟨hR, hrest⟩ := hchain
      simp only [optimizeAux, hR, if_false, Bool.false_eq_true]
      rw [ih c hrest]

theorem optimize_fixed {l : List AnimationCommand}
    (hchain : List.Chain' (fun a b => mergeableCmd b a = false) l) :
    optimize_animations l = l := by
  cases l with
  | nil => rfl
  | cons c rest =>
      cases rest with
      | nil => rfl
      | cons d tail =>
          unfold optimize_animations
          simp only [List.length_cons]
          rw [if_neg (by omega)]
          exact optimizeAux_fixed (d :: tail) c hchain

/-- C5: the animation-sequence optimizer is idempotent: re-applying
`optimize_animations` to its own output is a no-op, for every command
sequence. -/
theorem optimize_animations_idempotent (cmds : List AnimationCommand) :
    optimize_animations (optimize_animations cmds) = optimize_animations cmds := by
  cases cmds with
  | nil => rfl
  | cons c rest =>
      cases rest with
      | nil => rfl
      | cons d tail =>
          have hform : optimize_animations (c :: d :: tail) = optimizeAux c (d :: tail) := by
            unfold optimize_animations
            simp only [List.length_cons]
            rw [if_neg (by omega)]
          rw [hform]
          exact optimize_fixed (optimizeAux_chain (d :: tail) c)

/-- C3: in `_apply_operator`, division, floor-division and modulo with a
zero right operand (`0`, `0.0` or `False`) evaluate to the fallbacks `0.0`,
`0` and `0` without raising, for every non-`None` left operand and in any
tracer state; evaluating such a division inside an expression likewise
returns `0.0` and leaves the state untouched, so the trace is not
aborted. -/
theorem div_by_zero_fallback (l r : RVal) (st : TState)
    (hl : l ≠ RVal.rnone) (hz : pyEqZero r = true) :
    applyOperator .div l r st = (Except.ok (.rfloat 0), st) ∧
    applyOperator .floorDiv l r st = (Except.ok (.rint 0), st) ∧
    applyOperator .mod l r st = (Except.ok (.rint 0), st) ∧
    evalExpr 2 (.binOp .div (.const l) (.const r)) st = (Except.ok (.rfloat 0), st) := by
  have hr : r ≠ RVal.rnone := by
    cases r <;> simp_all [pyEqZero]
  have hdiv : applyOperatorCore st.ctx.heap .div l r = .inl (.rfloat 0) := by
    simp [applyOperatorCore, hl, hr, hz]
  have hfd : applyOperatorCore st.ctx.heap .floorDiv l r = .inl (.rint 0) := by
    simp [applyOperatorCore, hl, hr, hz]
  have hmod : applyOperatorCore st.ctx.heap .mod l r = .inl (.rint 0) := by
    simp [applyOperatorCore, hl, hr, hz]
  have h1 : applyOperator .div l r st = (Except.ok (.rfloat 0), st) := by
    unfold applyOperator
    rw [run_bind]
    simp only [mGet]
    rw [hdiv]
    rfl
  have h2 : applyOperator .floorDiv l r st = (Except.ok (.rint 0), st) := by
    unfold applyOperator
    rw [run_bind]
    simp only [mGet]
    rw [hfd]
    rfl
  have h3 : applyOperator .mod l r st = (Except.ok (.rint 0), st) := by
    unfold applyOperator
    rw [run_bind]
    simp only [mGet]
    rw [hmod]
    rfl
  refine ⟨h1, h2, h3, ?_⟩
  show (evalExpr 1 (.const l) >>= fun lv =>
        evalExpr 1 (.const r) >>= fun rv => applyOperator .div lv rv) st =
      (Except.ok (.rfloat 0), st)
  rw [run_bind]
  simp only [evalExpr]
  rw [run_bind]
  simp only [evalExpr]
  exact h1

/-- C3 witness: `7 / 0 = 0.0`, `7 // 0 = 0`, `7 % 0 = 0` in the fresh
tracer state. -/
theorem div_by_zero_fallback_witness :
    applyOperator .div (.rint 7) (.rint 0) (initState {}) =
      (Except.ok (.rfloat 0), initState {}) ∧
    applyOperator .floorDiv (.rint 7) (.rint 0) (initState {}) =
      (Except.ok (.rint 0), initState {}) ∧
    applyOperator .mod (.rint 7) (.rint 0) (initState {}) =
      (Except.ok (.rint 0), initState {}) ∧
    evalExpr 2 (.binOp .div (.const (.rint 7)) (.const (.rint 0))) (initState {}) =
      (Except.ok (.rfloat 0), initState {}) :=
  div_by_zero_fallback (.rint 7) (.rint 0) (initState {}) (by decide) (by decide)

/-- C7: for every non-empty step sequence the generic fallback adapter
matches, so `detect_adapters` returns at least one adapter and in
particular contains the generic one. -/
theorem detect_adapters_total_coverage (steps : List ExecutionStep) (h : steps ≠ []) :
    GenericAdapter_can_handle steps = true ∧
    "GenericAdapter" ∈ detect_adapters steps ∧
    detect_adapters steps ≠ [] := by
  have hGen : GenericAdapter_can_handle steps = true := by
    simp [GenericAdapter_can_handle, h]
  have hMemP : ("GenericAdapter", GenericAdapter_can_handle) ∈ ADAPTER_PRIORITY := by
    simp [ADAPTER_PRIORITY]
  have hMem : "GenericAdapter" ∈
      (ADAPTER_PRIORITY.filter (fun p => p.2 steps)).map Prod.fst := by
    refine List.mem_map.mpr ⟨("GenericAdapter", GenericAdapter_can_handle), ?_, rfl⟩
    exact List.mem_filter.mpr ⟨hMemP, hGen⟩
  have hNE : ¬ ((ADAPTER_PRIORITY.filter (fun p => p.2 steps)).map Prod.fst).isEmpty = true := by
    intro hc
    rw [List.isEmpty_iff] at hc
    exact List.ne_nil_of_mem hMem hc
  refine ⟨hGen, ?_, ?_⟩
  · unfold detect_adapters
    rw [if_neg hNE]
    exact hMem
  · unfold detect_adapters
    rw [if_neg hNE]
    exact List.ne_nil_of_mem hMem

/-- C7 witness at a one-step sequence. -/
theorem detect_adapters_total_coverage_witness :
    GenericAdapter_can_handle [mkStep 1 []] = true ∧
    "GenericAdapter" ∈ detect_adapters [mkStep 1 []] ∧
    detect_adapters [mkStep 1 []] ≠ [] :=
  detect_adapters_total_coverage [mkStep 1 []] (by simp)

set_option maxHeartbeats 2000000 in
/-- C8 (code bug): on execution steps whose tracked array ends sorted
(here: bubble-sorting `[3,1,2]` to `[1,2,3]`) the array adapter emits the
two exchange `SWAP`s and *no* trailing `HIGHLIGHT` cascade — even though
the final snapshot is sorted — because `add_sorted_celebration` reads
`array_snapshot_timeline`, which no code path ever populates. -/
theorem sorted_celebration_never_emitted :
    is_array_sorted (some [.vint 1, .vint 2, .vint 3]) = true ∧
    ArrayAdapter_run bubbleSteps =
      [create_swap_command 0 1 500, create_swap_command 1 2 500] ∧
    ∀ c ∈ ArrayAdapter_run bubbleSteps, c.command_type ≠ CommandType.HIGHLIGHT := by
  refine ⟨by decide, by decide, by decide⟩

set_option maxHeartbeats 2000000 in
/-- C9 counterexample: the variable `memo`, bound to a non-empty dict all
of whose values are lists (the claim's graph shape), makes the hash-map
adapter's `can_handle` return `True` — via the keyword branch of the
per-variable probe. -/
theorem graph_shaped_dict_matches_hashmap :
    (((memoGraphSteps.getD 0 dummyES).variables_state.map Prod.snd).all
        (fun v => match v with
          | .vdict kvs => !kvs.isEmpty && (kvs.map Prod.snd).all isListOrSetSnap
          | _ => false) = true) ∧
    hashmapVarTriggers "memo" (.vdict [(.vstr "a", .vlist [.vint 1])]) = true ∧
    HashMapAdapter_can_handle memoGraphSteps = true := by
  refine ⟨by decide, by decide, by decide⟩

set_option maxHeartbeats 8000000 in
/-- C4 counterexample: tracing `arr = [2, 1]; arr[0], arr[1] = arr[1],
arr[0]` and running the array adapter yields exactly one `SWAP` on
`[0, 1]` — no `COMPARE` command precedes it (none is emitted at all). -/
theorem swap_emits_no_compare :
    ArrayAdapter_run c4Steps = [create_swap_command 0 1 500] ∧
    ∀ c ∈ ArrayAdapter_run c4Steps, c.command_type ≠ CommandType.COMPARE := by
  refine ⟨by decide, by decide⟩

set_option maxHeartbeats 2000000 in
/-- C1 counterexample: with `max_steps = 1`, tracing two assignments
halts, but the fault escaping `trace` is an `ExecutionError` carrying the
current line and the cause name `ResourceError` (the `except Exception`
arm of `trace` re-wraps the internal `ResourceError`), not a
resource-class fault. -/
theorem step_budget_fault_is_wrapped :
    trace { max_steps := 1 } env0 twoAssignProg 100 =
      Except.error (.execution 1 "ResourceError") ∧
    ∀ rt : String, trace { max_steps := 1 } env0 twoAssignProg 100 ≠
      Except.error (.resource rt) := by
  have h : trace { max_steps := 1 } env0 twoAssignProg 100 =
      Except.error (.execution 1 "ResourceError") := by decide
  refine ⟨h, ?_⟩
  intro rt
  rw [h]
  simp

/-- C1 amended: for every configuration with `max_steps = N`, a successful
`trace` returns at most `N` steps; exceeding the budget raises a fault
(wrapped as an execution fault naming `ResourceError`, see the
counterexample) — the step list is never silently truncated. -/
theorem step_budget_never_truncates (cfg : TracerConfig) (env : Env) (prog : List Stmt)
    (fuel : Nat) (steps : List ExecutionStep)
    (h : trace cfg env prog fuel = Except.ok steps) :
    steps.length ≤ cfg.max_steps := by
  obtain ⟨stf, hInv, hsteps⟩ := trace_ok_inv h
  obtain ⟨h1, h2, _, _⟩ := hInv
  rw [hsteps, List.length_map]
  exact h1.trans h2

set_option maxHeartbeats 4000000 in
/-- C1 witness: a concrete successful trace satisfying the budget bound. -/
theorem step_budget_never_truncates_witness :
    trace {} env0 twoAssignProg 100 = Except.ok c1OkSteps ∧
    c1OkSteps.length ≤ ({} : TracerConfig).max_steps :=
  ⟨by decide, step_budget_never_truncates {} env0 twoAssignProg 100 c1OkSteps (by decide)⟩

set_option maxHeartbeats 2000000 in
/-- C2 (code bug in source): the traced execution is entirely independent
of the configured `max_execution_time_seconds` — `_monitor_timeout` raises
`TimeoutError` inside its own daemon thread, which cannot interrupt the
interpreting thread — and concretely a trace runs to successful completion
under a 0.01-second limit. -/
theorem timeout_limit_has_no_effect :
    (∀ (cfg : TracerConfig) (env : Env) (prog : List Stmt) (fuel : Nat) (t₁ t₂ : Rat),
      trace { cfg with max_execution_time_seconds := t₁ } env prog fuel =
        trace { cfg with max_execution_time_seconds := t₂ } env prog fuel) ∧
    (trace { max_execution_time_seconds := 1 / 100 } env0 twoAssignProg 100).toOption.isSome
      = true := by
  constructor
  · intro cfg env prog fuel t₁ t₂
    rfl
  · have h : trace { max_execution_time_seconds := 1 / 100 } env0 twoAssignProg 100 =
        trace {} env0 twoAssignProg 100 := rfl
    rw [h]
    decide

theorem filter_range_none : ∀ (n : Nat) (p : Nat → Bool),
    (∀ k, k < n → p k = false) → (List.range n).filter p = [] := by
  intro n
  induction n with
  | zero => intro p _; rfl
  | succ m ih =>
      intro p hp
      rw [List.range_succ, List.filter_append]
      rw [ih p (fun k hk => hp k (Nat.lt_succ_of_lt hk))]
      simp [List.filter, hp m (Nat.lt_succ_self m)]

theorem filter_range_single : ∀ (n : Nat) (p : Nat → Bool) (i : Nat), i < n →
    (∀ k, k < n → (p k = true ↔ k = i)) → (List.range n).filter p = [i] := by
  intro n
  induction n with
  | zero => intro p i hi _; exact absurd hi (Nat.not_lt_zero i)
  | succ m ih =>
      intro p i hi hp
      rw [List.range_succ, List.filter_append]
      by_cases him : i = m
      · subst him
        have hnone : (List.range i).filter p = [] := by
          apply filter_range_none
          intro k hk
          cases hpk : p k with
          | false => rfl
          | true => exact absurd ((hp k (Nat.lt_succ_of_lt hk)).mp hpk) (Nat.ne_of_lt hk)
        rw [hnone]
        have hpi : p i = true := (hp i (Nat.lt_succ_self i)).mpr rfl
        simp [List.filter, hpi]
      · have hi' : i < m := Nat.lt_of_le_of_ne (Nat.lt_succ_iff.mp hi) him
        rw [ih p i hi' (fun k hk => hp k (Nat.lt_succ_of_lt hk))]
        have hpm : p m = false := by
          cases hpm : p m with
          | false => rfl
          | true => exact absurd ((hp m (Nat.lt_succ_self m)).mp hpm).symm him
        simp [List.filter, hpm]

theorem filter_range_pair : ∀ (n : Nat) (p : Nat → Bool) (i j : Nat), i < j → j < n →
    (∀ k, k < n → (p k = true ↔ (k = i ∨ k = j))) →
    (List.range n).filter p = [i, j] := by
  intro n
  induction n with
  | zero => intro p i j _ hj _; exact absurd hj (Nat.not_lt_zero j)
  | succ m ih =>
      intro p i j hij hj hp
      rw [List.range_succ, List.filter_append]
      by_cases hjm : j = m
      · subst hjm
        have hsingle : (List.range j).filter p = [i] := by
          apply filter_range_single j p i hij
          intro k hk
          constructor
          · intro hpk
            rcases (hp k (Nat.lt_succ_of_lt hk)).mp hpk with h | h
            · exact h
            · exact absurd h (Nat.ne_of_lt hk)
          · intro hk_eq
            exact (hp k (Nat.lt_succ_of_lt hk)).mpr (Or.inl hk_eq)
        rw [hsingle]
        have hpj : p j = true := (hp j (Nat.lt_succ_self j)).mpr (Or.inr rfl)
        simp [List.filter, hpj]
      · have hj' : j < m := Nat.lt_of_le_of_ne (Nat.lt_succ_iff.mp hj) hjm
        rw [ih p i j hij hj' (fun k hk => hp k (Nat.lt_succ_of_lt hk))]
        have hpm : p m = false := by
          cases hpm : p m with
          | false => rfl
          | true =>
              rcases (hp m (Nat.lt_succ_self m)).mp hpm with h | h
              · exact absurd h (by omega)
              · exact absurd h (by omega)
        simp [List.filter, hpm]

set_option maxHeartbeats 8000000 in
/-- C4 amended: for every pair of equal-length snapshots in which exactly
two indices `i < j` differ and each holds the other's old value,
`detect_array_changes` reports exactly the swap of `i` and `j`, which the
mutation translation of `generate_animations` turns into a single `SWAP`
command — no `COMPARE` is produced for the exchange; concretely, the trace
of the spec's swap program ends with `arr = [1, 2]` and the adapter emits
exactly the `SWAP` on `[0, 1]`. -/
theorem exact_exchange_swap_roundtrip :
    (∀ (old new : List SnapVal) (i j : Nat),
      old.length = new.length → i < j → j < old.length →
      new.getD i .vnone = old.getD j .vnone →
      new.getD j .vnone = old.getD i .vnone →
      old.getD i .vnone ≠ new.getD i .vnone →
      old.getD j .vnone ≠ new.getD j .vnone →
      (∀ k, k < old.length → k ≠ i → k ≠ j →
        old.getD k .vnone = new.getD k .vnone) →
      ArrayAdapter_detect_array_changes old new =
        [.swapM (Int.ofNat i) (Int.ofNat j)] ∧
      mutationCommands (ArrayAdapter_detect_array_changes old new) =
        [create_swap_command (Int.ofNat i) (Int.ofNat j) 500]) ∧
    lookupA (c4Steps.getLastD dummyES).variables_state "arr" =
      some (.vlist [.vint 1, .vint 2]) ∧
    ArrayAdapter_run c4Steps = [create_swap_command 0 1 500] := by
  refine ⟨?_, by decide, by decide⟩
  intro old new i j hlen hij hjn h1 h2 hdi hdj hother
  have hchanged : (List.range old.length).filter
      (fun k => old.getD k .vnone != new.getD k .vnone) = [i, j] := by
    apply filter_range_pair old.length _ i j hij hjn
    intro k hk
    simp only [bne_iff_ne, ne_eq]
    constructor
    · intro hne
      by_contra hcon
      push_neg at hcon
      exact hne (hother k hk hcon.1 hcon.2)
    · rintro (rfl | rfl)
      · exact hdi
      · exact hdj
  have hdet : ArrayAdapter_detect_array_changes old new =
      [.swapM (Int.ofNat i) (Int.ofNat j)] := by
    unfold ArrayAdapter_detect_array_changes
    rw [if_neg (by simp [hlen])]
    simp only [hchanged]
    simp only [List.getD_cons_zero, List.getD_cons_succ, List.length_cons, List.length_nil]
    rw [if_pos ⟨trivial, h2.symm, h1.symm⟩]
  exact ⟨hdet, by rw [hdet]; rfl⟩

/-- C4 witness: the exchange hypotheses hold for the snapshots `[2, 1]` and
`[1, 2]`, and the detector reports exactly the `0`-`1` swap. -/
theorem exact_exchange_swap_roundtrip_witness :
    ArrayAdapter_detect_array_changes [.vint 2, .vint 1] [.vint 1, .vint 2] =
      [.swapM (Int.ofNat 0) (Int.ofNat 1)] ∧
    mutationCommands
        (ArrayAdapter_detect_array_changes [.vint 2, .vint 1] [.vint 1, .vint 2]) =
      [create_swap_command (Int.ofNat 0) (Int.ofNat 1) 500] :=
  exact_exchange_swap_roundtrip.1 [.vint 2, .vint 1] [.vint 1, .vint 2] 0 1
    (by decide) (by decide) (by decide) (by decide) (by decide) (by decide) (by decide)
    (by decide)

set_option maxHeartbeats 4000000 in
/-- C6 counterexample: two runs of `arr = [1]` under the same configuration
— differing only in where the allocator placed the list, i.e. in the `id()`
labels — produce step sequences that differ beyond the timestamp and
CPU-time fields: `heap_state` is keyed by the run's `id()` values. -/
theorem trace_runs_differ_beyond_time :
    ¬ resultsEqExceptTime (trace {} env0 oneListProg 50)
        (trace {} envShift oneListProg 50) := by
  decide

theorem eraseStep_stampStep (env : Env) (s : StepCore) :
    eraseStep (stampStep env s) = eraseCore s := by
  simp only [eraseStep, stampStep, eraseCore, List.map_map]
  rfl

/-- C6 amended: modulo the run-dependent observations — timestamps, CPU
times, and the `id()` labels that key `heap_state` and stamp the heap
objects — tracing is deterministic: the erased results of two runs of the
same program under the same configuration agree for every pair of run
environments. -/
theorem trace_deterministic_modulo_identity (cfg : TracerConfig) (prog : List Stmt)
    (fuel : Nat) (env₁ env₂ : Env) :
    eraseResult (trace cfg env₁ prog fuel) = eraseResult (trace cfg env₂ prog fuel) := by
  unfold trace eraseResult
  rcases execModule cfg.max_steps cfg.capture_expressions fuel prog (initState cfg)
    with ⟨res, st⟩
  cases res with
  | ok u =>
      have key : ∀ (env : Env) (l : List StepCore),
          List.map eraseStep (List.map (stampStep env) l) = List.map eraseCore l := by
        intro env l
        rw [List.map_map]
        exact List.map_congr_left (fun s _ => eraseStep_stampStep env s)
      simp only [Except.map]
      rw [key env₁, key env₂]
  | error f => cases f <;> rfl

set_option maxHeartbeats 2000000 in
/-- C9 amended: a variable bound to a dict all of whose values are
lists/sets (the graph shape) never triggers the hash-map probe *provided
its name contains no hash-map keyword* (the keyword branch overrides the
shape exclusion, see the counterexample); and a nested dict with `left`
and `right` keys is matched by the tree adapter, which is the primary
detected adapter — not the generic fallback. -/
theorem hashmap_exclusion_and_tree_priority :
    (∀ (name : String) (kvs : List (SnapVal × SnapVal)),
      anyKeyword name ["hash", "map", "dict", "table", "cache", "memo",
        "counter", "freq", "count", "lookup", "index_map"] = false →
      (kvs.map Prod.snd).all isListOrSetSnap = true →
      hashmapVarTriggers name (.vdict kvs) = false) ∧
    TreeAdapter_can_handle treeNodeSteps = true ∧
    get_primary_adapter treeNodeSteps = some "TreeAdapter" := by
  refine ⟨?_, by decide, by decide⟩
  intro name kvs hkw hall
  simp [hashmapVarTriggers, hall, hkw]

/-- C9 witness: the keyword-free variable `g` bound to a graph-shaped dict
does not trigger the hash-map probe. -/
theorem hashmap_exclusion_and_tree_priority_witness :
    hashmapVarTriggers "g" (.vdict [(.vstr "a", .vlist [.vint 1])]) = false :=
  hashmap_exclusion_and_tree_priority.1 "g" [(.vstr "a", .vlist [.vint 1])]
    (by decide) (by decide)

/-- C10: heap snapshots are write-once.  In any successful trace under an
environment whose `id()` labelling is injective (as CPython ids of live
objects are), two heap entries of any two emitted steps that share an
object id hold the same recorded object — the deep copy taken when the
container was first tracked — so later mutations of the container are
never reflected in the `heap_state` of any later step. -/
theorem heap_state_write_once (cfg : TracerConfig) (env : Env) (prog : List Stmt)
    (fuel : Nat) (steps : List ExecutionStep)
    (hinj : Function.Injective env.idOf)
    (h : trace cfg env prog fuel = Except.ok steps) :
    ∀ s₁ ∈ steps, ∀ s₂ ∈ steps, ∀ p₁ ∈ s₁.heap_state, ∀ p₂ ∈ s₂.heap_state,
      p₁.1 = p₂.1 → p₁.2 = p₂.2 := by
  obtain ⟨stf, hInv, hsteps⟩ := trace_ok_inv h
  obtain ⟨_, _, _, hHC⟩ := hInv
  subst hsteps
  intro s₁ hs₁ s₂ hs₂ p₁ hp₁ p₂ hp₂ hkey
  rw [List.mem_map] at hs₁ hs₂
  obtain ⟨c₁, hc₁, rfl⟩ := hs₁
  obtain ⟨c₂, hc₂, rfl⟩ := hs₂
  simp only [stampStep, List.mem_map] at hp₁ hp₂
  obtain ⟨q₁, hq₁, rfl⟩ := hp₁
  obtain ⟨q₂, hq₂, rfl⟩ := hp₂
  simp only at hkey ⊢
  have haddr : q₁.1 = q₂.1 := hinj hkey
  have h₁ := hHC c₁ hc₁ q₁ hq₁
  have h₂ := hHC c₂ hc₂ q₂ hq₂
  rw [haddr, h₂] at h₁
  rw [Option.some.injEq] at h₁
  rw [h₁]

set_option maxHeartbeats 8000000 in
/-- C10 witness on the swap trace: the canonical labelling is injective,
the trace succeeds, the recorded heap value in both steps stays the first
snapshot `[2, 1]` even though the variables of the second step already
show the exchanged list `[1, 2]` — and the write-once property holds. -/
theorem heap_state_write_once_witness :
    Function.Injective env0.idOf ∧
    trace {} env0 swapProg 50 = Except.ok c4Steps ∧
    (c4HeapObjAt 0).value = .vlist [.vint 2, .vint 1] ∧
    (c4HeapObjAt 1).value = .vlist [.vint 2, .vint 1] ∧
    lookupA (c4Steps.getD 1 dummyES).variables_state "arr" =
      some (.vlist [.vint 1, .vint 2]) ∧
    (∀ s₁ ∈ c4Steps, ∀ s₂ ∈ c4Steps, ∀ p₁ ∈ s₁.heap_state, ∀ p₂ ∈ s₂.heap_state,
      p₁.1 = p₂.1 → p₁.2 = p₂.2) :=
  ⟨fun _ _ hab => hab, by decide, by decide, by decide, by decide,
   heap_state_write_once {} env0 swapProg 50 c4Steps (fun _ _ hab => hab) (by decide)⟩
